import Mathlib

/-!
Shallow embedding of the price/rating extraction-and-ranking pipeline of the
web-scraping repository (src/final.py, src/scraper.py, src/populando_db.py),
together with theorems settling the frozen claims about it.

Python strings are modelled as Lean `String` / `List Char`; Python floats as
`ℚ` (the numeric strings handled by the code are exact decimals); Python
`None` as `Option.none`.  Regular-expression searches used by the code
(`NUMBER_RE`, `CURRENCY_RE` and the two rating patterns) are embedded as
explicit leftmost matchers with Python's greedy/backtracking semantics.
-/

set_option maxRecDepth 10000

/- Batteries marks the `Rat` field operations `@[irreducible]`, which blocks
`decide`-style evaluation of concrete rational results.  Re-allow unfolding
them; this only changes elaborator reducibility hints, not the definitions. -/
set_option allowUnsafeReducibility true
attribute [local semireducible] Rat.add Rat.mul Rat.inv Rat.sub

/-- Characters of the regex class `\s` (ASCII range, as produced by the pages). -/
def isWS (c : Char) : Bool :=
  c = ' ' || c = '\t' || c = '\n' || c = '\r' || c = '\x0b' || c = '\x0c'

/-- Characters of the regex class `\w` (ASCII model). -/
def isWordChar (c : Char) : Bool := c.isAlphanum || c = '_'

/-- `str.lower` on one character (ASCII plus the Latin-1 uppercase block). -/
def pyLowerC (c : Char) : Char :=
  if 'A' ≤ c ∧ c ≤ 'Z' then Char.ofNat (c.toNat + 32)
  else if 0xC0 ≤ c.toNat ∧ c.toNat ≤ 0xDE ∧ c.toNat ≠ 0xD7 then Char.ofNat (c.toNat + 32)
  else c

/-- `str.upper` on one character (ASCII plus the Latin-1 lowercase block). -/
def pyUpperC (c : Char) : Char :=
  if 'a' ≤ c ∧ c ≤ 'z' then Char.ofNat (c.toNat - 32)
  else if 0xE0 ≤ c.toNat ∧ c.toNat ≤ 0xFE ∧ c.toNat ≠ 0xF7 then Char.ofNat (c.toNat - 32)
  else c

def pyLowerL (cs : List Char) : List Char := cs.map pyLowerC

def pyUpperL (cs : List Char) : List Char := cs.map pyUpperC

def pyLower (s : String) : String := String.mk (pyLowerL s.data)

/-- `l1.startsWith l2` on character lists. -/
def startsWithL : List Char → List Char → Bool
  | _, [] => true
  | [], _ :: _ => false
  | c :: cs, d :: ds => c = d && startsWithL cs ds

/-- Python's substring test `needle in hay`. -/
def containsL : List Char → List Char → Bool
  | [], n => n.isEmpty
  | c :: cs, n => startsWithL (c :: cs) n || containsL cs n

def containsS (hay needle : String) : Bool := containsL hay.data needle.data

/-- `str.strip()` (whitespace at both ends). -/
def stripWS (cs : List Char) : List Char :=
  ((cs.dropWhile isWS).reverse.dropWhile isWS).reverse

/-- `re.sub(r"\s+", " ", s)`: collapse every whitespace run to one space.
The flag records whether the previous character was whitespace. -/
def collapseWSAux : Bool → List Char → List Char
  | _, [] => []
  | prevWS, c :: cs =>
    if isWS c then
      if prevWS then collapseWSAux true cs else ' ' :: collapseWSAux true cs
    else c :: collapseWSAux false cs

/-- `clean_text(s)`: `re.sub(r"\s+", " ", str(s)).strip()` (final.py line 60,
scraper.py line 277); empty input yields the empty string. -/
def clean_text (s : String) : String := String.mk (stripWS (collapseWSAux false s.data))

def digitVal (c : Char) : Nat := c.toNat - 48

def digitsToNat (ds : List Char) : Nat := ds.foldl (fun a c => 10 * a + digitVal c) 0

/-! ### `NUMBER_RE = \d{1,3}(?:\.\d{3})*,\d{2}`

`commaTwo` matches the tail `,\d{2}`; `grpThen` matches `(?:\.\d{3})*,\d{2}`
with Python's greedy backtracking (take a `\.\d{3}` group if possible, fall
back to the comma when the rest fails); `tryNum`/`numAt` match the whole
pattern at the head of the list (`\d{1,3}` tried greedily: 3, then 2, then 1
digits); `searchNum` is `NUMBER_RE.search`: the leftmost match. -/

def commaTwo : List Char → Option Nat
  | ',' :: a :: b :: _ => if a.isDigit && b.isDigit then some 3 else none
  | _ => none

def grpThen : List Char → Option Nat
  | '.' :: a :: b :: c :: rest =>
    if a.isDigit && b.isDigit && c.isDigit then
      match grpThen rest with
      | some n => some (n + 4)
      | none => commaTwo ('.' :: a :: b :: c :: rest)
    else commaTwo ('.' :: a :: b :: c :: rest)
  | cs => commaTwo cs

def tryNum (cs : List Char) (n : Nat) : Option (List Char) :=
  let ds := cs.take n
  if ds.length = n && ds.all Char.isDigit then
    match grpThen (cs.drop n) with
    | some k => some (cs.take (n + k))
    | none => none
  else none

def numAt (cs : List Char) : Option (List Char) :=
  match tryNum cs 3 with
  | some m => some m
  | none =>
    match tryNum cs 2 with
    | some m => some m
    | none => tryNum cs 1

def searchNum : List Char → Option (List Char)
  | [] => none
  | c :: rest =>
    match numAt (c :: rest) with
    | some m => some m
    | none => searchNum rest

/-- Declarative form of `NUMBER_RE` matching a whole string: one to three
digits, then dot-separated groups of three digits, then a comma and exactly
two digits. -/
def tailTok : List Char → Bool
  | [',', a, b] => a.isDigit && b.isDigit
  | '.' :: a :: b :: c :: rest => a.isDigit && b.isDigit && c.isDigit && tailTok rest
  | _ => false

def tokenMatch (m : List Char) : Bool :=
  let ds := m.takeWhile Char.isDigit
  decide (1 ≤ ds.length) && decide (ds.length ≤ 3) && tailTok (m.dropWhile Char.isDigit)

/-- The decimal value denoted by a `NUMBER_RE` token: thousands dots removed,
the two digits after the comma are the fractional part. -/
def tokenValue (m : List Char) : ℚ :=
  let ds := m.filter (fun c => c ≠ '.')
  (digitsToNat (ds.takeWhile (fun c => c ≠ ',')) : ℚ) +
    (digitsToNat ((ds.dropWhile (fun c => c ≠ ',')).drop 1) : ℚ) / 100

/-- Some `NUMBER_RE` token starts at the head of `cs`. -/
def tokPre (cs : List Char) : Bool :=
  (List.range (cs.length + 1)).any (fun k => tokenMatch (cs.take k))

/-- Some `NUMBER_RE` token occurs somewhere in `cs`. -/
def containsToken (cs : List Char) : Bool :=
  (List.range (cs.length + 1)).any (fun i => tokPre (cs.drop i))

/-- Python's `float()` on the decimal literals produced by the scraper
(optional sign, digits, optional fractional part; exponents and the
`inf`/`nan` forms never occur in this pipeline and are unmodelled). -/
def parseFloatLit (cs0 : List Char) : Option ℚ :=
  let cs1 := stripWS cs0
  let sgn : ℚ × List Char :=
    if cs1.head? = some '-' then (-1, cs1.tail)
    else if cs1.head? = some '+' then (1, cs1.tail)
    else (1, cs1)
  let ip := sgn.2.takeWhile Char.isDigit
  match sgn.2.dropWhile Char.isDigit with
  | [] => if ip = [] then none else some (sgn.1 * (digitsToNat ip : ℚ))
  | '.' :: fr =>
    let fd := fr.takeWhile Char.isDigit
    if fr.dropWhile Char.isDigit = [] ∧ (ip ≠ [] ∨ fd ≠ []) then
      some (sgn.1 * ((digitsToNat ip : ℚ) + (digitsToNat fd : ℚ) / (10 : ℚ) ^ fd.length))
    else none
  | _ => none

/-- `str.replace(old, new)` for single characters. -/
def pyReplaceChar (cs : List Char) (old new : Char) : List Char :=
  cs.map (fun c => if c = old then new else c)

/-- `br_to_float(txt)` (final.py lines 64-70, scraper.py lines 279-284):
search `NUMBER_RE`, strip the dots, turn the comma into a dot, parse. -/
def br_to_float (s : String) : Option ℚ :=
  if s.data = [] then none
  else
    match searchNum s.data with
    | none => none
    | some m => parseFloatLit (pyReplaceChar (m.filter (fun c => c ≠ '.')) ',' '.')

/-- `norm_price_str(txt)` (final.py lines 72-75, scraper.py lines 286-288). -/
def norm_price_str (s : String) : String :=
  match searchNum s.data with
  | none => ""
  | some m => "R$ " ++ String.mk m

/-! ### The rating parser `parse_avaliacao`
(scraper.py lines 87-112, populando_db.py lines 48-80.)

Its first pattern is `(\d+(?:[.,]\d+)?)\s*(?:de|/)\s*5\b`, the second
`\b(\d+(?:[.,]\d+)?)\b`.  In both, the greedy `\d+` runs and the optional
fractional group are all-or-nothing: a shortened digit run leaves a digit as
the next character, on which every continuation of either pattern fails, so
the matchers below take maximal runs and only fall back by dropping the whole
optional group. -/

def noWordHead (cs : List Char) : Bool :=
  match cs with
  | [] => true
  | c :: _ => !isWordChar c

/-- `\s*5\b` (the tail of the first rating pattern). -/
def suffix5 (cs : List Char) : Bool :=
  match cs.dropWhile isWS with
  | '5' :: r => noWordHead r
  | _ => false

/-- Match `(\d+(?:[.,]\d+)?)\s*(?:de|/)\s*5\b` at the head, returning group 1. -/
def r1At (cs : List Char) : Option (List Char) :=
  let ds := cs.takeWhile Char.isDigit
  if ds = [] then none
  else
    let rest := cs.dropWhile Char.isDigit
    let fr : List Char × List Char :=
      match rest with
      | c :: d :: r3 =>
        if (c = '.' || c = ',') && d.isDigit then
          (c :: d :: r3.takeWhile Char.isDigit, r3.dropWhile Char.isDigit)
        else ([], rest)
      | _ => ([], rest)
    match fr.2.dropWhile isWS with
    | 'd' :: 'e' :: r4 => if suffix5 r4 then some (ds ++ fr.1) else none
    | '/' :: r4 => if suffix5 r4 then some (ds ++ fr.1) else none
    | _ => none

def searchR1 : List Char → Option (List Char)
  | [] => none
  | c :: rest =>
    match r1At (c :: rest) with
    | some g => some g
    | none => searchR1 rest

/-- Match `\b(\d+(?:[.,]\d+)?)\b` at the head (`prevWord` says whether the
preceding character was a word character, for the leading boundary). -/
def r2At (prevWord : Bool) (cs : List Char) : Option (List Char) :=
  if prevWord then none
  else
    let ds := cs.takeWhile Char.isDigit
    if ds = [] then none
    else
      match cs.dropWhile Char.isDigit with
      | [] => some ds
      | c :: r2 =>
        if (c = '.' || c = ',') && (match r2 with | d :: _ => d.isDigit | [] => false) then
          let fd := r2.takeWhile Char.isDigit
          if noWordHead (r2.dropWhile Char.isDigit) then some (ds ++ c :: fd) else some ds
        else if isWordChar c then none
        else some ds

def searchR2Aux (prevWord : Bool) : List Char → Option (List Char)
  | [] => none
  | c :: rest =>
    match r2At prevWord (c :: rest) with
    | some g => some g
    | none => searchR2Aux (isWordChar c) rest

def searchR2 (cs : List Char) : Option (List Char) := searchR2Aux false cs

/-- Round to integer, ties to even (Python's `round` on exact values). -/
def rheZ (x : ℚ) : ℤ :=
  if x - ⌊x⌋ < 1 / 2 then ⌊x⌋
  else if 1 / 2 < x - ⌊x⌋ then ⌊x⌋ + 1
  else if Even ⌊x⌋ then ⌊x⌋ else ⌊x⌋ + 1

/-- Python's `round(v, 2)` on the exact decimal values of this pipeline. -/
def round2 (q : ℚ) : ℚ := (rheZ (q * 100) : ℚ) / 100

def kwAval : List Char := "avaliaç".data

def kwDe5 : List Char := "de 5".data

def kwSlash5 : List Char := "/5".data

/-- The guarded conversion applied to either pattern's group 1:
`float(m.group(1).replace(",", "."))`, returned only when within `[0, 5]`. -/
def rateFromGroup (g : List Char) : Option ℚ :=
  match parseFloatLit (pyReplaceChar g ',' '.') with
  | some v => if 0 ≤ v ∧ v ≤ 5 then some (round2 v) else none
  | none => none

/-- `parse_avaliacao(value)`: rating in `[0, 5]` from strings such as
`"4,5 de 5"` or `"4.5/5"`; review counts (`"27 avaliações"`) are not ratings.
When the first pattern matches, its guard decides the result (the second
pattern is not consulted), exactly as in the source. -/
def parse_avaliacao (s : String) : Option ℚ :=
  let t := pyLowerL (stripWS s.data)
  if containsL t kwAval ∧ ¬ containsL t kwDe5 = true ∧ ¬ containsL t kwSlash5 = true then none
  else
    match searchR1 t with
    | some g => rateFromGroup g
    | none =>
      match searchR2 t with
      | some g => rateFromGroup g
      | none => none

/-! ### The candidate ranker of final.py (`pick_best_price`, lines 143-156) -/

/-- A raw price candidate `(txt, score, reason)` as built in final.py. -/
structure Cand where
  txt : String
  score : ℤ
  reason : String
deriving DecidableEq

/-- A surviving candidate `(price_str, price_num, score, reason)`. -/
structure NCand where
  ps : String
  pv : ℚ
  sc : ℤ
  rs : String
deriving DecidableEq

namespace Final

def INSTALLMENT_KEYS : List (List Char) :=
  ["x de r$".data, "x de ".data, "em até".data, "parcela".data, "parcelas".data]

def installmentHit (low : List Char) : Bool :=
  INSTALLMENT_KEYS.any (fun k => containsL low k)

def dePenalty (low : List Char) : Bool :=
  (containsL low (" de ").data || containsL low (" de r$").data) &&
    !containsL low (" por ").data

/-- The `normed` list built by final.py's `pick_best_price`: installment
texts dropped, discount-reference penalty applied, unparsable texts dropped. -/
def normedOf : List Cand → List NCand
  | [] => []
  | c :: rest =>
    let low := pyLowerL c.txt.data
    if installmentHit low then normedOf rest
    else
      let score := if dePenalty low then c.score - 2 else c.score
      let pstr := norm_price_str c.txt
      match br_to_float pstr with
      | none => normedOf rest
      | some v => if pstr = "" then normedOf rest else ⟨pstr, v, score, c.reason⟩ :: normedOf rest

/-- `key=lambda x: (-x[2], x[1])`: higher score first, then lower price. -/
def keyLe (a b : NCand) : Bool :=
  decide (b.sc < a.sc) || (decide (a.sc = b.sc) && decide (a.pv ≤ b.pv))

def keyR (a b : NCand) : Prop := keyLe a b = true

instance : DecidableRel keyR := fun _ _ => instDecidableEqBool _ _

/-- `pick_best_price(cands)` of final.py: returns the best candidate's
price string and numeric value, plus the top entries as a debug trail
(the debug entries are kept as data rather than formatted strings). -/
def pick_best_price (cands : List Cand) : String × Option ℚ × List NCand :=
  match List.insertionSort keyR (normedOf cands) with
  | [] => ("", none, [])
  | b :: rest => (b.ps, some b.pv, (b :: rest).take 6)

end Final

/-! ### The candidate ranker of scraper.py (`pick_best_price`, lines 347-358):
no filtering and no scores; sorts by `(price_num, reason)`. -/

/-- A raw price candidate `(txt, reason)` as built in scraper.py. -/
structure SCand where
  txt : String
  reason : String
deriving DecidableEq

/-- A surviving candidate `(price_str, price_num, reason)` in scraper.py. -/
structure SNorm where
  ps : String
  pv : ℚ
  rs : String
deriving DecidableEq

namespace Scraper

def normedOf : List SCand → List SNorm
  | [] => []
  | c :: rest =>
    let pstr := norm_price_str c.txt
    match br_to_float pstr with
    | none => normedOf rest
    | some v => if pstr = "" then normedOf rest else ⟨pstr, v, c.reason⟩ :: normedOf rest

/-- `key=lambda x: (x[1], x[2])`: ascending price, then the reason string. -/
def skeyLe (a b : SNorm) : Bool :=
  decide (a.pv < b.pv) || (decide (a.pv = b.pv) && decide (a.rs ≤ b.rs))

def skeyR (a b : SNorm) : Prop := skeyLe a b = true

instance : DecidableRel skeyR := fun _ _ => instDecidableEqBool _ _

def pick_best_price (cands : List SCand) : String × Option ℚ × List SNorm :=
  match List.insertionSort skeyR (normedOf cands) with
  | [] => ("", none, [])
  | b :: rest => (b.ps, some b.pv, (b :: rest).take 5)

end Scraper

/-! ### `CURRENCY_RE = R\$\s*\d{1,3}(?:\.\d{3})*,\d{2}` -/

def currAt (cs : List Char) : Bool :=
  match cs with
  | 'R' :: '$' :: rest => (numAt (rest.dropWhile isWS)).isSome
  | _ => false

def currencySearch : List Char → Bool
  | [] => false
  | c :: cs => currAt (c :: cs) || currencySearch cs

def numberSearch (cs : List Char) : Bool := (searchNum cs).isSome

def currMatchAt (cs : List Char) : Option (List Char) :=
  match cs with
  | 'R' :: '$' :: rest =>
    match numAt (rest.dropWhile isWS) with
    | some m => some ('R' :: '$' :: (rest.takeWhile isWS ++ m))
    | none => none
  | _ => none

/-- `CURRENCY_RE.findall`: all non-overlapping matches, leftmost first.
The fuel only serves structural termination; `cs.length` steps always
suffice because every step consumes at least one character. -/
def currFindAllAux : Nat → List Char → List (List Char)
  | 0, _ => []
  | _, [] => []
  | fuel + 1, c :: rest =>
    match currMatchAt (c :: rest) with
    | some m => m :: currFindAllAux fuel (rest.drop (m.length - 1))
    | none => currFindAllAux fuel rest

def currFindAll (cs : List Char) : List (List Char) := currFindAllAux cs.length cs

/-! ### JSON-LD structured data (`extract_jsonld_all` output model and
`jsonld_prices`, final.py lines 88-117).

The documents are modelled after `json.loads`: the parsed values of the
`<script type="application/ld+json">` blocks (parse failures are silently
skipped by the code, so only the successfully parsed objects appear in the
model). -/

inductive Json where
  | null
  | bool (v : Bool)
  | num (v : ℚ)
  | str (v : String)
  | arr (xs : List Json)
  | obj (kv : List (String × Json))

/-- `obj.get(k) if isinstance(obj, dict) else None`. -/
def jget (j : Json) (k : String) : Option Json :=
  match j with
  | Json.obj kv => (kv.find? (fun p => p.1 = k)).map Prod.snd
  | _ => none

/-- Python truthiness of the (optional) value. -/
def jTruthy : Option Json → Bool
  | none => false
  | some Json.null => false
  | some (Json.bool v) => v
  | some (Json.num v) => !decide (v = 0)
  | some (Json.str v) => !decide (v = "")
  | some (Json.arr xs) => !xs.isEmpty
  | some (Json.obj kv) => !kv.isEmpty

def natStr (n : Nat) : String := String.mk (Nat.toDigits 10 n)

def intStr (z : ℤ) : String := (if z < 0 then "-" else "") ++ natStr z.natAbs

def decExp (q : ℚ) : Option Nat := (List.range 31).find? (fun k => (q * (10 : ℚ) ^ k).den = 1)

/-- Model of Python's `str()` on a number parsed from JSON (an `int` prints
with no point; a `float` with an exact short decimal expansion prints it).
The claims only exercise string-valued offer fields, so this model function
is never load-bearing. -/
def pyNumStr (q : ℚ) : String :=
  if q.den = 1 then intStr q.num
  else
    match decExp q with
    | some k =>
      let t : ℤ := (q * (10 : ℚ) ^ k).num
      let ds := Nat.toDigits 10 t.natAbs
      let padded := List.replicate (k + 1 - ds.length) '0' ++ ds
      (if t < 0 then "-" else "") ++ String.mk (padded.take (padded.length - k)) ++ "." ++
        String.mk (padded.drop (padded.length - k))
    | none => ""

/-- `str(v)` for `isinstance(v, (int, float, str))` (Python `bool` is an
`int`, printing `True`/`False`); other shapes are skipped. -/
def jPrimStr : Json → Option String
  | Json.str v => some v
  | Json.num v => some (pyNumStr v)
  | Json.bool v => some (if v then ("True") else ("False"))
  | _ => none

def OFFER_KEYS : List String := ["price", "lowPrice", "highPrice"]

def offerVals (o : Json) : List String :=
  match o with
  | Json.obj _ => OFFER_KEYS.filterMap (fun k => (jget o k).bind jPrimStr)
  | _ => []

def jsonldRaw (objs : List Json) : List String :=
  objs.flatMap (fun obj =>
    let offers := jget obj ("offers")
    if jTruthy offers then
      match offers with
      | some (Json.arr os) => os.flatMap offerVals
      | some (Json.obj kv) => offerVals (Json.obj kv)
      | _ => []
    else [])

/-- `.replace(',', 'X').replace('.', ',').replace('X', '.')`. -/
def fmtSwapBR (s : String) : String :=
  String.mk (pyReplaceChar (pyReplaceChar (pyReplaceChar s.data ',' 'X') '.' ',') 'X' '.')

def group3Rev : List Char → List Char
  | a :: b :: c :: d :: rest => a :: b :: c :: ',' :: group3Rev (d :: rest)
  | l => l

/-- Python's `f"{f:,.2f}"`: two decimals, comma-grouped thousands. -/
def pyFmt2f (f : ℚ) : String :=
  let c := rheZ (f * 100)
  let a := c.natAbs
  let cents := a % 100
  (if c < 0 then "-" else "") ++ String.mk ((group3Rev (natStr (a / 100)).data.reverse).reverse)
    ++ "." ++ (if cents < 10 then "0" else "") ++ natStr cents

/-- `jsonld_prices(soup)` (final.py lines 88-117): collect `price`,
`lowPrice`, `highPrice` over all `offers`, then render each either through
`norm_price_str` (comma-decimal values) or as `R$ {float:,.2f}` with the
separators swapped (dot-decimal values). -/
def jsonld_prices (objs : List Json) : List String :=
  (jsonldRaw objs).filterMap (fun v =>
    if v ≠ "" ∧ containsL v.data [','] ∧ numberSearch v.data then some (norm_price_str v)
    else
      match parseFloatLit v.data with
      | some f => some (fmtSwapBR (("R$ ") ++ pyFmt2f f))
      | none => none)

/-! ### The DOM model and both `collect_dom_prices` variants.

A document is modelled as: its parsed JSON-LD blocks, the elements returned
by `soup.select(sel)` for each CSS selector (an association list; CSS
matching itself is outside the embedding, the element lists are the model's
input), the parent-block texts found by final.py's free-text scan for
`por|à vista|a vista|pix`, and the full page text `soup.get_text(' ')`. -/

structure Elem where
  txt : String
  classes : List String
deriving DecidableEq

structure Doc where
  jsonld : List Json
  domBySel : List (String × List Elem)
  contextBlocks : List String
  fullText : String

def selLookup (d : List (String × List Elem)) (sel : String) : List Elem :=
  match d.find? (fun p => p.1 = sel) with
  | some p => p.2
  | none => []

def OLD_PRICE_CLASSES : List (List Char) :=
  ["old".data, "from".data, "risk".data, "strike".data, "line-through".data,
   "cross".data, "de-preco".data, "preco-de".data, "price-from".data]

def BAD_PRICE_HINTS : List (List Char) :=
  ["de ".data, "de:".data, "antes".data, "was".data, "de r$".data, "sem juros".data,
   "juros".data, "parcela".data, "parcelas".data, "em até".data, "cartão".data,
   "no cartão".data, "assinatura".data, "subscribe".data, "club".data, "prime".data]

def GOOD_PRICE_HINTS : List (List Char) :=
  ["por ".data, "à vista".data, "a vista".data, "pix".data, "boleto".data,
   "preço".data, "price".data, "valor".data, "final".data, "agora".data]

namespace Final

def SELECTORS_PRICE_COMMON : List String :=
  ["[itemprop=\"price\"]", "[data-testid*=\"price\"]", "[class*=\"price\"]",
   "[aria-label*=\"preço\"]", "[aria-label*=\"preco\"]"]

def SELECTORS_PRICE_MAGALU : List String :=
  ["[data-testid=\"price-value\"]", "[data-testid=\"price-big\"]",
   "[data-testid=\"price-amount\"]", "[class*=\"Price\"]"]

def SELECTORS_PRICE_KABUM : List String :=
  ["[data-testid=\"product-price\"]", "span.finalPrice", "h4.finalPrice", ".priceCard strong"]

/-- `any(k in cls for k in OLD_PRICE_CLASSES)` with
`cls = ' '.join(el.get('class', [])).lower()`. -/
def staleElem (el : Elem) : Bool :=
  OLD_PRICE_CLASSES.any (fun k => containsL (pyLowerL (String.intercalate (" ") el.classes).data) k)

/-- One selector-matched element's contribution in final.py's
`collect_dom_prices` (lines 125-136): empty text, stale-price classes and
number-free texts are skipped, then keyword and selector bonuses are scored. -/
def elemCand (sel : String) (el : Elem) : Option Cand :=
  let txt := clean_text el.txt
  if txt = "" then none
  else
    if staleElem el then none
    else if !currencySearch txt.data && !numberSearch txt.data then none
    else
      let s1 : ℤ := if GOOD_PRICE_HINTS.any (fun h => containsL (pyLowerL txt.data) h) then 2 else 0
      let s2 : ℤ := if BAD_PRICE_HINTS.any (fun h => containsL (pyLowerL txt.data) h) then -2 else 0
      let s3 : ℤ := if SELECTORS_PRICE_MAGALU.contains sel || SELECTORS_PRICE_KABUM.contains sel then 2 else 0
      some ⟨txt, s1 + s2 + s3, ("sel:") ++ sel⟩

def contextCands (blocks : List String) : List Cand :=
  blocks.filterMap (fun b =>
    let t := clean_text b
    if t ≠ "" ∧ (currencySearch t.data ∨ numberSearch t.data) then
      some ⟨t, 3, "context:por/avista"⟩
    else none)

def selListFor (domain_hint : String) : List String :=
  (if containsS domain_hint ("magalu") || containsS domain_hint ("magazineluiza") then
    SELECTORS_PRICE_MAGALU else []) ++
  (if containsS domain_hint ("kabum") then SELECTORS_PRICE_KABUM else []) ++
  SELECTORS_PRICE_COMMON

/-- `collect_dom_prices(soup, domain_hint)` (final.py lines 119-141). -/
def collect_dom_prices (doc : Doc) (domain_hint : String) : List Cand :=
  ((selListFor domain_hint).flatMap
    (fun sel => (selLookup doc.domBySel sel).filterMap (elemCand sel))) ++
  contextCands doc.contextBlocks

/-- The same document with every stale-classed element removed from the
selector results (used to state that such elements never contribute). -/
def dropStaleElems (doc : Doc) : Doc :=
  { doc with domBySel := doc.domBySel.map (fun p => (p.1, p.2.filter (fun el => !staleElem el))) }

end Final

deriving instance DecidableEq for Except

namespace Scraper

def SELECTORS_PRICE_MAGALU : List String :=
  ["[data-testid=\"price-value\"]", "[data-testid=\"price-big\"]",
   "[data-testid=\"price-amount\"]", "[class*=\"Price\"]", "[itemprop=\"price\"]"]

def SELECTORS_PRICE_KABUM : List String :=
  ["[data-testid=\"product-price\"]", "span.finalPrice", "h4.finalPrice",
   ".priceCard strong", "[itemprop=\"price\"]"]

def SELECTORS_PRICE_COMMON : List String :=
  ["[itemprop=\"price\"]", "[data-testid*=\"price\"]", "[class*=\"price\"]"]

def selListFor (domain_hint : String) : List String :=
  (if containsS domain_hint ("magalu") || containsS domain_hint ("magazineluiza") then
    SELECTORS_PRICE_MAGALU else []) ++
  (if containsS domain_hint ("kabum") then SELECTORS_PRICE_KABUM else []) ++
  SELECTORS_PRICE_COMMON

/-- `collect_dom_prices(soup, domain_hint)` (scraper.py lines 331-345):
no class filter, no scores, no context scan. -/
def collect_dom_prices (doc : Doc) (domain_hint : String) : List SCand :=
  (selListFor domain_hint).flatMap (fun sel =>
    (selLookup doc.domBySel sel).filterMap (fun el =>
      let txt := clean_text el.txt
      if txt = "" then none
      else if !(currencySearch txt.data || numberSearch txt.data) then none
      else some ⟨txt, ("sel:") ++ sel⟩))

end Scraper

/-! ### The site dispatcher and the batch loop of final.py
(`DOMAIN_PARSERS`/`pick_parser` lines 490-504, `normalize_input_dataframe`
lines 506-528, `scrape_products` lines 552-624).

The three per-domain parsers share one price pipeline and differ only in the
`domain_hint` they pass to `collect_dom_prices`; `parserHintFor` computes
that hint from the URL as `pick_parser` does.  Page retrieval (Selenium) is
abstracted as `fetch : String → Except String Doc`: `Except.error e` models
`ensure_driver_and_get` returning `html is None` with error `e`.  Only the
price-related record fields are modelled (no claim concerns
seller/rating/shipping). -/

def idxOfSub : List Char → List Char → Option Nat
  | [], pat => if pat.isEmpty then some 0 else none
  | c :: cs, pat =>
    if startsWithL (c :: cs) pat then some 0 else (idxOfSub cs pat).map (· + 1)

/-- `urlparse(url).netloc` for the http(s) URLs handled by the scraper. -/
def netlocOf (url : String) : List Char :=
  match idxOfSub url.data ("://").data with
  | some i => (url.data.drop (i + 3)).takeWhile (fun c => c ≠ '/' ∧ c ≠ '?' ∧ c ≠ '#')
  | none => []

/-- The `collect_dom_prices` hint chosen by `pick_parser`'s domain dispatch. -/
def parserHintFor (url : String) : String :=
  let net0 := pyLowerL (netlocOf url)
  let net := if startsWithL net0 ("www.").data then net0.drop 4 else net0
  if containsL net ("magazineluiza.com.br").data || containsL net ("magalu.com").data then
    "magalu"
  else if containsL net ("kabum.com.br").data then "kabum"
  else ""

structure Item where
  produto : String
  url : String
  fonte : String
deriving DecidableEq

/-- The input spreadsheet: column names and rows of (stringified) cells. -/
structure DF where
  cols : List String
  rows : List (List String)

def NAME_COLS : List String := ["nome", "produto", "product", "item", "descricao", "descrição"]

def cellAt (row : List String) (i : Nat) : String := row.getD i ""

def pyStripLower (s : String) : String := String.mk (pyLowerL (stripWS s.data))

def nameIdxOf (df : DF) : Nat :=
  match (List.range df.cols.length).find?
      (fun i => NAME_COLS.contains (pyStripLower (df.cols.getD i ""))) with
  | some i => i
  | none => 0

def linkIdxsOf (df : DF) : List Nat :=
  let byName := (List.range df.cols.length).filter (fun i =>
    let cl := pyLowerL (df.cols.getD i "").data
    containsL cl ("link").data || containsL cl ("url").data)
  if byName.isEmpty then
    (List.range df.cols.length).filter (fun i =>
      df.rows.any (fun r =>
        containsL (cellAt r i).data ("http://").data ||
          containsL (cellAt r i).data ("https://").data))
  else byName

/-- `normalize_input_dataframe(df)`: one item per (row, link column) whose
cleaned cell starts with `"http"`. -/
def normalize_input_dataframe (df : DF) : List Item :=
  df.rows.flatMap (fun r =>
    let nome := clean_text (cellAt r (nameIdxOf df))
    (linkIdxsOf df).filterMap (fun i =>
      let url := clean_text (cellAt r i)
      if startsWithL url.data ("http").data then some ⟨nome, url, df.cols.getD i ""⟩
      else none))

structure Record where
  produto : String
  url : String
  fonte_coluna : String
  preco : String
  preco_num : Option ℚ
  status : String
  erro : String
deriving DecidableEq

/-- Model of iterating over `set(regex_price)`: duplicates removed, first
occurrence order kept (the set's real iteration order is unspecified; it
only matters for equal-price ties, which the claims do not exercise). -/
def dedupKeepOrderAux (seen : List String) : List String → List String
  | [] => []
  | s :: rest =>
    if seen.contains s then dedupKeepOrderAux seen rest
    else s :: dedupKeepOrderAux (s :: seen) rest

def dedupKeepOrder (l : List String) : List String := dedupKeepOrderAux [] l

def fbKey (x : String × Option ℚ) : ℚ :=
  match x.2 with
  | some v => v
  | none => (10 : ℚ) ^ 12

/-- `key=lambda x: (x[1] if x[1] is not None else 1e12)`. -/
def fbLe (a b : String × Option ℚ) : Prop := fbKey a ≤ fbKey b

instance : DecidableRel fbLe := fun a b => inferInstanceAs (Decidable (fbKey a ≤ fbKey b))

/-- The regex-only fallback in `scrape_products` (final.py lines 578-584):
all `CURRENCY_RE` matches of the page text, minimum value wins. -/
def priceFallback (fullText : String) : String × Option ℚ :=
  match currFindAll fullText.data with
  | [] => ("", none)
  | l =>
    let strs := dedupKeepOrder (l.map String.mk)
    match List.insertionSort fbLe (strs.map (fun p => (p, br_to_float p))) with
    | [] => ("", none)
    | (p, v) :: _ =>
      match v with
      | some vv => (norm_price_str p, some vv)
      | none => ("", none)

/-- The price portion of one iteration of the `scrape_products` loop. -/
def processItem (fetch : String → Except String Doc) (it : Item) : Record :=
  match fetch it.url with
  | Except.error e => ⟨it.produto, it.url, it.fonte, "", none, "erro", e⟩
  | Except.ok doc =>
    let hint := parserHintFor it.url
    let pr := Final.pick_best_price
      ((jsonld_prices doc.jsonld).map (fun p => ⟨p, 5, "jsonld"⟩) ++
        Final.collect_dom_prices doc hint)
    let price := pr.1
    if price = "" then
      let fb := priceFallback doc.fullText
      ⟨it.produto, it.url, it.fonte, fb.1, fb.2, "ok", ""⟩
    else ⟨it.produto, it.url, it.fonte, price, br_to_float price, "ok", ""⟩

/-- `scrape_products` (final.py lines 552-624): raise when no valid link
was found, otherwise one record per item, per-item failures recorded in the
item's own record. -/
def scrape_products (fetch : String → Except String Doc) (df : DF) : Except String (List Record) :=
  let items := normalize_input_dataframe df
  if items.isEmpty then Except.error ("Nenhum link válido encontrado.")
  else Except.ok (items.map (processItem fetch))

/-! ### The ingest side (populando_db.py).

`hashlib.sha1(...).hexdigest()` is a library function; it is modelled by a
deterministic 160-bit polynomial hash rendered as 40 hex characters — only
the determinism (same normalized name, same code) of the digest is relied
upon by the development. -/

namespace PDB

def hexDigit (n : Nat) : Char := if n < 10 then Char.ofNat (48 + n) else Char.ofNat (87 + n)

def hexChars : Nat → Nat → List Char
  | 0, _ => []
  | k + 1, n => hexChars k (n / 16) ++ [hexDigit (n % 16)]

/-- Model of `hashlib.sha1(s.encode("utf-8")).hexdigest()`. -/
def sha1hex (s : String) : String :=
  String.mk (hexChars 40 (s.data.foldl (fun a c => (a * 131 + c.toNat + 7) % 2 ^ 160) 2463534242))

/-- Python `s[:n]`. -/
def pySlice (s : String) (n : Nat) : String := String.mk (s.data.take n)

/-- `re.sub(r"\s+", " ", produto.strip().lower())`. -/
def normName (s : String) : String :=
  String.mk (collapseWSAux false (pyLowerL (stripWS s.data)))

/-- The derived product code `"p_" + sha1(norm)[:20]`
(populando_db.py lines 244-247). -/
def product_code (produto : String) : String :=
  ("p_") ++ pySlice (sha1hex (normName produto)) 20

def BRANDS : List String :=
  ["Apple", "Samsung", "Motorola", "Xiaomi", "Nokia", "Asus", "Google", "Sony",
   "LG", "Realme", "OnePlus", "Huawei", "Infinix", "OPPO", "Vivo", "Lenovo"]

def COLOR_WORDS : List String :=
  ["preto", "black", "azul", "blue", "verde", "green", "branco", "white",
   "cinza", "gray", "graphite", "violet", "violeta", "pink", "rosa"]

def ciEq (a b : Char) : Bool := pyLowerC a = pyLowerC b

def ciStarts : List Char → List Char → Bool
  | _, [] => true
  | [], _ :: _ => false
  | c :: cs, d :: ds => ciEq c d && ciStarts cs ds

/-- Case-insensitive `\b{w}\b` match at the head (the leading boundary is
the caller's `prevWord` flag). -/
def wordAt (hay needle : List Char) : Bool :=
  ciStarts hay needle && noWordHead (hay.drop needle.length)

def wordSearchAux (needle : List Char) : Bool → List Char → Bool
  | _, [] => false
  | prevWord, c :: cs =>
    (!prevWord && wordAt (c :: cs) needle) || wordSearchAux needle (isWordChar c) cs

/-- `re.search(rf"\b{w}\b", p, re.IGNORECASE)` for the brand/color words. -/
def wordSearchCI (hay needle : List Char) : Bool := wordSearchAux needle false hay

/-- Match `\b(\d{2,4}\s?GB)\b` at the head of `cs` (leading boundary already
checked by the caller).  The greedy `\d{2,4}` is all-or-nothing: with fewer
digits than the run the next character is a digit, failing `\s?GB`. -/
def storAt (cs : List Char) : Option (List Char) :=
  let ds := cs.takeWhile Char.isDigit
  if 2 ≤ ds.length ∧ ds.length ≤ 4 then
    match cs.dropWhile Char.isDigit with
    | c1 :: c2 :: r =>
      if ciEq c1 'g' && ciEq c2 'b' && noWordHead r then some (ds ++ [c1, c2])
      else
        match c1 :: c2 :: r with
        | s1 :: g :: b :: r2 =>
          if isWS s1 && ciEq g 'g' && ciEq b 'b' && noWordHead r2 then
            some (ds ++ [s1, g, b])
          else none
        | _ => none
    | _ => none
  else none

def storageSearch : Bool → List Char → Option (List Char)
  | _, [] => none
  | prevWord, c :: cs =>
    match (if prevWord then none else storAt (c :: cs)) with
    | some m => some m
    | none => storageSearch (isWordChar c) cs

/-- First color word (alternation tried in declaration order) matching with
word boundaries at the head. -/
def colorAt (cs : List Char) : Option (List Char) :=
  (COLOR_WORDS.find? (fun w => wordAt cs w.data)).map
    (fun w => cs.take w.data.length)

def colorSearch : Bool → List Char → Option (List Char)
  | _, [] => none
  | prevWord, c :: cs =>
    match (if prevWord then none else colorAt (c :: cs)) with
    | some m => some m
    | none => colorSearch (isWordChar c) cs

/-- `str.capitalize()`. -/
def pyCapitalize (s : String) : String :=
  match s.data with
  | [] => ""
  | c :: cs => String.mk (pyUpperC c :: pyLowerL cs)

/-- A maximal whitespace run: kept as-is when of length one, replaced by a
single space when longer (`\s{2,}` → `" "`). -/
def emitRun (run : List Char) : List Char := if 2 ≤ run.length then [' '] else run

def collapse2Aux (run : List Char) : List Char → List Char
  | [] => emitRun run
  | c :: cs =>
    if isWS c then collapse2Aux (run ++ [c]) cs
    else emitRun run ++ c :: collapse2Aux [] cs

/-- `re.sub(r"\s{2,}", " ", s)`: only runs of two or more are collapsed. -/
def collapse2 (cs : List Char) : List Char := collapse2Aux [] cs

def dedupKeepOrderSAux (seen : List String) : List String → List String
  | [] => []
  | s :: rest =>
    if seen.contains s then dedupKeepOrderSAux seen rest
    else s :: dedupKeepOrderSAux (s :: seen) rest

def dedupKeepOrderS (l : List String) : List String := dedupKeepOrderSAux [] l

/-- Text after the first case-insensitive `\b{brand}\b` occurrence
(`re.split(..., maxsplit=1)[-1]`), assuming the brand occurs. -/
def afterWord (hay needle : List Char) (prevWord : Bool) : List Char :=
  match hay with
  | [] => []
  | c :: cs =>
    if !prevWord && wordAt (c :: cs) needle then (c :: cs).drop needle.length
    else afterWord cs needle (isWordChar c)

def MODEL_BREAKS : List Char := ['-', '|', ',', '(']

/-- `extract_product_fields(produto)` (populando_db.py lines 88-131). -/
def extract_product_fields (produto : String) : String × String × String :=
  if produto = "" then ("Desconhecida", "", "")
  else
    let p := String.mk (stripWS produto.data)
    let found := BRANDS.find? (fun b => wordSearchCI p.data b.data)
    let brand := found.getD "Desconhecida"
    let storage := storageSearch false p.data
    let color := colorSearch false p.data
    let parts := (match storage with
      | some m => [String.mk (pyUpperL m)]
      | none => []) ++ (match color with
      | some m => [pyCapitalize (String.mk m)]
      | none => [])
    let variant := if parts.isEmpty then "" else String.intercalate (" ") (dedupKeepOrderS parts)
    let model0 := match found with
      | some b => String.mk (stripWS (afterWord p.data b.data false))
      | none => p
    let model1 := String.mk (stripWS (model0.data.takeWhile (fun c => ¬ c ∈ MODEL_BREAKS)))
    let model2 := String.mk (collapse2 model1.data)
    let model := if model2 = "" ∨ model2.data.length < 3 then p else model2
    (brand, pySlice model 255, pySlice variant 255)

structure ProductRow where
  id : Nat
  brand : String
  code : String
  model : String
  variante : String
deriving DecidableEq

structure ListRow where
  id : Nat
  url : String
  price : Option ℚ
  avaliacao : Option ℚ
  frete_price : Option ℚ
  prazo : Option String
  created_at : Option String
  fk_product : Nat
  fk_seller : Nat
  fk_fornecedor : Nat
deriving DecidableEq

/-- The `Products` and `List` tables (ids model MySQL auto-increment). -/
structure DBState where
  products : List ProductRow
  lists : List ListRow
deriving DecidableEq

/-- `get_or_create_product(engine, produto)` (populando_db.py lines 242-258):
select by derived code, insert when absent, return the row id. -/
def get_or_create_product (db : DBState) (produto : String) : Nat × DBState :=
  let f := extract_product_fields produto
  let code := product_code produto
  match db.products.find? (fun r => r.code = code) with
  | some r => (r.id, db)
  | none =>
    let nid := db.products.length + 1
    (nid, { db with products := db.products ++
        [⟨nid, pySlice f.1 255, pySlice code 100, pySlice f.2.1 255, pySlice f.2.2 255⟩] })

/-- The non-key values of one `List` row. -/
structure ListArgs where
  url : Option String
  price : Option ℚ
  avaliacao : Option ℚ
  frete_price : Option ℚ
  prazo : Option String
  created_at : Option String
  fk_seller : Nat
  fk_fornecedor : Nat
deriving DecidableEq

/-- `insert_list_row(...)` (populando_db.py lines 260-280): a plain INSERT. -/
def insert_list_row (db : DBState) (a : ListArgs) (fk_product : Nat) : DBState :=
  { db with lists := db.lists ++
      [⟨db.lists.length + 1, pySlice (a.url.getD "") 500, a.price, a.avaliacao,
        a.frete_price,
        (match a.prazo with
         | some p => if p = "" then none else some (pySlice p 100)
         | none => none),
        a.created_at, fk_product, a.fk_seller, a.fk_fornecedor⟩] }

/-- Two ingests of the same product name: resolve-or-create the product,
insert a listing, twice. -/
def twiceIngest (db : DBState) (produto : String) (a1 a2 : ListArgs) :
    Nat × Nat × DBState :=
  let r1 := get_or_create_product db produto
  let d1 := insert_list_row r1.2 a1 r1.1
  let r2 := get_or_create_product d1 produto
  let d2 := insert_list_row r2.2 a2 r2.1
  (r1.1, r2.1, d2)

end PDB

/-! ## Theorems -/

instance : IsTotal NCand Final.keyR := ⟨by
  intro a b
  simp only [Final.keyR, Final.keyLe, Bool.or_eq_true, Bool.and_eq_true, decide_eq_true_eq]
  rcases lt_trichotomy a.sc b.sc with h | h | h
  · exact Or.inr (Or.inl h)
  · rcases le_total a.pv b.pv with hp | hp
    · exact Or.inl (Or.inr ⟨h, hp⟩)
    · exact Or.inr (Or.inr ⟨h.symm, hp⟩)
  · exact Or.inl (Or.inl h)⟩

instance : IsTrans NCand Final.keyR := ⟨by
  intro a b c hab hbc
  simp only [Final.keyR, Final.keyLe, Bool.or_eq_true, Bool.and_eq_true,
    decide_eq_true_eq] at hab hbc ⊢
  rcases hab with h1 | ⟨h1, h1p⟩ <;> rcases hbc with h2 | ⟨h2, h2p⟩
  · exact Or.inl (h2.trans h1)
  · exact Or.inl (h2 ▸ h1)
  · exact Or.inl (h1 ▸ h2)
  · exact Or.inr ⟨h1.trans h2, h1p.trans h2p⟩⟩

/-- What final.py's ranker guarantees: the returned price string and value
come from a surviving candidate of maximal score, and of minimal numeric
price among the survivors of that score. -/
theorem Final.pick_spec (cands : List Cand) (h : Final.normedOf cands ≠ []) :
    ∃ c ∈ Final.normedOf cands,
      (Final.pick_best_price cands).1 = c.ps ∧
      (Final.pick_best_price cands).2.1 = some c.pv ∧
      (∀ d ∈ Final.normedOf cands, d.sc ≤ c.sc) ∧
      (∀ d ∈ Final.normedOf cands, d.sc = c.sc → c.pv ≤ d.pv) := by
  cases hs : List.insertionSort Final.keyR (Final.normedOf cands) with
  | nil =>
    exfalso
    have hp := List.perm_insertionSort Final.keyR (Final.normedOf cands)
    rw [hs] at hp
    exact h hp.symm.eq_nil
  | cons b t =>
    have hsort : List.Sorted Final.keyR (b :: t) := by
      rw [← hs]
      exact List.sorted_insertionSort Final.keyR (Final.normedOf cands)
    have hp := List.perm_insertionSort Final.keyR (Final.normedOf cands)
    rw [hs] at hp
    have hmem : b ∈ Final.normedOf cands := hp.mem_iff.mp (List.mem_cons_self b t)
    have hrel : ∀ d ∈ Final.normedOf cands, d = b ∨ Final.keyR b d := by
      intro d hd
      rcases List.mem_cons.mp (hp.mem_iff.mpr hd) with h' | h'
      · exact Or.inl h'
      · exact Or.inr (List.rel_of_sorted_cons hsort d h')
    refine ⟨b, hmem, ?_, ?_, ?_, ?_⟩
    · simp [Final.pick_best_price, hs]
    · simp [Final.pick_best_price, hs]
    · intro d hd
      rcases hrel d hd with rfl | hr
      · exact le_refl _
      · simp only [Final.keyR, Final.keyLe, Bool.or_eq_true, Bool.and_eq_true,
          decide_eq_true_eq] at hr
        rcases hr with h' | ⟨h', _⟩
        · exact le_of_lt h'
        · exact le_of_eq h'.symm
    · intro d hd heq
      rcases hrel d hd with rfl | hr
      · exact le_refl _
      · simp only [Final.keyR, Final.keyLe, Bool.or_eq_true, Bool.and_eq_true,
          decide_eq_true_eq] at hr
        rcases hr with h' | ⟨_, h'⟩
        · exact absurd (heq ▸ h') (lt_irrefl _)
        · exact h'

/-- C1: for every candidate list given to final.py's `pick_best_price`, the
chosen candidate has the maximal score among the surviving candidates, and
among equal-score survivors the lowest numeric price is selected. -/
theorem C1_pick_best_price_ranking :
    ∀ cands : List Cand, Final.normedOf cands ≠ [] →
      ∃ c ∈ Final.normedOf cands,
        (Final.pick_best_price cands).1 = c.ps ∧
        (Final.pick_best_price cands).2.1 = some c.pv ∧
        (∀ d ∈ Final.normedOf cands, d.sc ≤ c.sc) ∧
        (∀ d ∈ Final.normedOf cands, d.sc = c.sc → c.pv ≤ d.pv) :=
  fun cands h => Final.pick_spec cands h

/-- Witness for C1 at a concrete two-candidate list. -/
theorem C1_pick_best_price_ranking_witness :
    Final.normedOf [⟨"R$ 10,00", 1, "a"⟩, ⟨"R$ 9,00", 1, "b"⟩] ≠ [] ∧
    ∃ c ∈ Final.normedOf [⟨"R$ 10,00", 1, "a"⟩, ⟨"R$ 9,00", 1, "b"⟩],
      (Final.pick_best_price [⟨"R$ 10,00", 1, "a"⟩, ⟨"R$ 9,00", 1, "b"⟩]).1 = c.ps ∧
      (Final.pick_best_price [⟨"R$ 10,00", 1, "a"⟩, ⟨"R$ 9,00", 1, "b"⟩]).2.1 = some c.pv ∧
      (∀ d ∈ Final.normedOf [⟨"R$ 10,00", 1, "a"⟩, ⟨"R$ 9,00", 1, "b"⟩], d.sc ≤ c.sc) ∧
      (∀ d ∈ Final.normedOf [⟨"R$ 10,00", 1, "a"⟩, ⟨"R$ 9,00", 1, "b"⟩],
        d.sc = c.sc → c.pv ≤ d.pv) :=
  ⟨by decide, C1_pick_best_price_ranking [⟨"R$ 10,00", 1, "a"⟩, ⟨"R$ 9,00", 1, "b"⟩] (by decide)⟩

/-- C5: with one candidate `"de R$ 100,00"` and one `"por R$ 80,00"` at equal
initial score (either order), final.py's ranker selects `R$ 80,00`. -/
theorem C5_de_por_pair :
    ∀ (s : ℤ) (r1 r2 : String),
      (Final.pick_best_price [⟨"de R$ 100,00", s, r1⟩, ⟨"por R$ 80,00", s, r2⟩]).1 = "R$ 80,00" ∧
      (Final.pick_best_price [⟨"de R$ 100,00", s, r1⟩, ⟨"por R$ 80,00", s, r2⟩]).2.1 = some 80 ∧
      (Final.pick_best_price [⟨"por R$ 80,00", s, r2⟩, ⟨"de R$ 100,00", s, r1⟩]).1 = "R$ 80,00" := by
  intro s r1 r2
  have h1 : Final.normedOf [⟨"de R$ 100,00", s, r1⟩, ⟨"por R$ 80,00", s, r2⟩] =
      [⟨"R$ 100,00", 100, s, r1⟩, ⟨"R$ 80,00", 80, s, r2⟩] := rfl
  have h2 : Final.normedOf [⟨"por R$ 80,00", s, r2⟩, ⟨"de R$ 100,00", s, r1⟩] =
      [⟨"R$ 80,00", 80, s, r2⟩, ⟨"R$ 100,00", 100, s, r1⟩] := rfl
  obtain ⟨c, hc, hps, hpv, _, hmin⟩ :=
    Final.pick_spec [⟨"de R$ 100,00", s, r1⟩, ⟨"por R$ 80,00", s, r2⟩] (by rw [h1]; simp)
  obtain ⟨c', hc', hps', _, _, hmin'⟩ :=
    Final.pick_spec [⟨"por R$ 80,00", s, r2⟩, ⟨"de R$ 100,00", s, r1⟩] (by rw [h2]; simp)
  rw [h1] at hc hmin
  rw [h2] at hc' hmin'
  have hcv : c = (⟨"R$ 80,00", 80, s, r2⟩ : NCand) := by
    rcases List.mem_cons.mp hc with rfl | hc2
    · have := hmin ⟨"R$ 80,00", 80, s, r2⟩ (by simp) rfl
      norm_num at this
    · simpa using hc2
  have hcv' : c' = (⟨"R$ 80,00", 80, s, r2⟩ : NCand) := by
    rcases List.mem_cons.mp hc' with rfl | hc2
    · rfl
    · simp only [List.mem_singleton] at hc2
      subst hc2
      have h80 := hmin' ⟨"R$ 80,00", 80, s, r2⟩ (by simp) rfl
      norm_num at h80
  subst hcv
  subst hcv'
  exact ⟨hps, hpv, hps'⟩

/-- Filtering installment-pattern candidates away does not change final.py's
survivor list: `normedOf` already discards exactly those candidates. -/
theorem normedOf_filter_installment (cands : List Cand) :
    Final.normedOf (cands.filter (fun c => !Final.installmentHit (pyLowerL c.txt.data))) =
      Final.normedOf cands := by
  induction cands with
  | nil => rfl
  | cons c rest ih =>
    by_cases h : Final.installmentHit (pyLowerL c.txt.data) = true
    · simp only [List.filter_cons, h, Bool.not_true, if_neg, Bool.false_eq_true,
        not_false_iff, ih]
      conv_rhs => rw [Final.normedOf]
      simp only [h, if_true]
    · simp only [List.filter_cons, Bool.not_eq_true'] at *
      simp only [h, Bool.not_false, if_pos]
      rw [Final.normedOf, Final.normedOf]
      simp only [h, Bool.false_eq_true, if_false, ih]

/-- C2 counterexample: scraper.py's `pick_best_price` (one of the two rankers
the claim is about) applies no installment filter, and selects a candidate
whose text contains `"3x de R$"`. -/
theorem C2_counterexample :
    (Scraper.pick_best_price [⟨"3x de R$ 10,00", "sel:[class*=\"price\"]"⟩]).1 = "R$ 10,00" ∧
    (Scraper.pick_best_price [⟨"3x de R$ 10,00", "sel:[class*=\"price\"]"⟩]).2.1 = some 10 := by
  decide

/-- C2 (amended to final.py's ranker): any candidate whose lowercased text
contains one of the installment patterns (`"x de r$"`, `"x de "`, `"em até"`,
`"parcela"`, `"parcelas"` — in particular `"3x de R$"`) is discarded by
final.py's `pick_best_price` and is never the selected value: removing all
such candidates changes neither the survivor list nor the result. -/
theorem C2_installment_discarded :
    ∀ cands : List Cand,
      Final.normedOf (cands.filter (fun c => !Final.installmentHit (pyLowerL c.txt.data))) =
        Final.normedOf cands ∧
      Final.pick_best_price (cands.filter (fun c => !Final.installmentHit (pyLowerL c.txt.data))) =
        Final.pick_best_price cands := by
  intro cands
  refine ⟨normedOf_filter_installment cands, ?_⟩
  simp only [Final.pick_best_price, normedOf_filter_installment cands]

/-- A stale-classed element contributes no selector candidate in final.py. -/
theorem elemCand_of_stale (sel : String) (el : Elem) (h : Final.staleElem el = true) :
    Final.elemCand sel el = none := by
  by_cases ht : clean_text el.txt = ""
  · simp [Final.elemCand, ht]
  · simp [Final.elemCand, ht, h]

theorem filterMap_elemCand_drop_stale (sel : String) (l : List Elem) :
    (l.filter (fun el => !Final.staleElem el)).filterMap (Final.elemCand sel) =
      l.filterMap (Final.elemCand sel) := by
  induction l with
  | nil => rfl
  | cons el rest ih =>
    by_cases h : Final.staleElem el = true
    · simp only [List.filter_cons, h, Bool.not_true, Bool.false_eq_true, if_false,
        List.filterMap_cons, elemCand_of_stale sel el h, ih]
    · simp only [Bool.not_eq_true] at h
      simp only [List.filter_cons, h, Bool.not_false, if_true, List.filterMap_cons, ih]

theorem selLookup_dropStale (d : List (String × List Elem)) (sel : String) :
    selLookup (d.map (fun p => (p.1, p.2.filter (fun el => !Final.staleElem el)))) sel =
      (selLookup d sel).filter (fun el => !Final.staleElem el) := by
  induction d with
  | nil => rfl
  | cons q rest ih =>
    by_cases h : q.1 = sel
    · simp [selLookup, List.find?_cons, h]
    · simp only [selLookup, List.map_cons, List.find?_cons] at ih ⊢
      have hq : decide (q.1 = sel) = false := by simp [h]
      simp only [hq, ih]

/-- C7 (amended): in final.py's DOM collection, elements whose class
attribute contains a stale-price marker are rejected by the selector scan:
removing all of them from every selector's result list leaves
`collect_dom_prices` unchanged, so no such element ever yields a `sel:`
candidate (the free-text context scan and scraper.py's collector do not
apply this class filter — see the counterexample). -/
theorem C7_stale_classes_rejected :
    ∀ (doc : Doc) (hint : String),
      Final.collect_dom_prices (Final.dropStaleElems doc) hint =
        Final.collect_dom_prices doc hint := by
  intro doc hint
  simp only [Final.collect_dom_prices, Final.dropStaleElems]
  congr 1
  exact congrArg _ (funext fun sel => by
    rw [selLookup_dropStale, filterMap_elemCand_drop_stale])

/-- C7 counterexample: scraper.py's `collect_dom_prices` applies no
stale-class filter, so an element with class `"old"` both appears among the
candidates and becomes the chosen price. -/
theorem C7_counterexample :
    Scraper.collect_dom_prices
        ⟨[], [("[class*=\"price\"]", [⟨"R$ 50,00", ["old", "price-tag"]⟩])], [], "p"⟩ "" =
      [⟨"R$ 50,00", "sel:[class*=\"price\"]"⟩] ∧
    (Scraper.pick_best_price (Scraper.collect_dom_prices
        ⟨[], [("[class*=\"price\"]", [⟨"R$ 50,00", ["old", "price-tag"]⟩])], [], "p"⟩ "")).1 =
      "R$ 50,00" := by
  decide

/-- C6: a document whose only price source is a JSON-LD block with
`offers.price = "1299.90"` (no DOM price elements) yields the record price
string `"R$ 1.299,90"` and numeric price `1299.90`. -/
theorem C6_jsonld_dot_decimal_end_to_end :
    scrape_products
      (fun _ => Except.ok
        ⟨[Json.obj [("offers", Json.obj [("price", Json.str "1299.90")])]], [], [], "pagina"⟩)
      ⟨["produto", "link"], [["Produto X", "http://loja.exemplo/x"]]⟩ =
      Except.ok
        [⟨"Produto X", "http://loja.exemplo/x", "link",
          "R$ 1.299,90", some (129990 / 100), "ok", ""⟩] := by
  decide

theorem hexChars_length : ∀ (k n : Nat), (PDB.hexChars k n).length = k
  | 0, _ => rfl
  | k + 1, n => by simp [PDB.hexChars, hexChars_length k]

/-- The derived product code has 22 characters, so the `[:100]` slice stored
in the `code` column is the code itself. -/
theorem product_code_slice (produto : String) :
    PDB.pySlice (PDB.product_code produto) 100 = PDB.product_code produto := by
  have hlen : (PDB.product_code produto).data.length = 22 := by
    show (("p_" : String) ++ PDB.pySlice (PDB.sha1hex (PDB.normName produto)) 20).data.length = 22
    rw [String.data_append]
    simp [PDB.pySlice, PDB.sha1hex, List.length_take, hexChars_length]
  show String.mk ((PDB.product_code produto).data.take 100) = _
  rw [List.take_of_length_le (by rw [hlen]; norm_num)]

theorem gocp_insert (db : PDB.DBState) (produto : String)
    (hnone : db.products.find? (fun r => r.code = PDB.product_code produto) = none) :
    ∃ row : PDB.ProductRow, row.id = db.products.length + 1 ∧
      row.code = PDB.pySlice (PDB.product_code produto) 100 ∧
      PDB.get_or_create_product db produto =
        (db.products.length + 1, { db with products := db.products ++ [row] }) := by
  refine ⟨⟨db.products.length + 1, PDB.pySlice (PDB.extract_product_fields produto).1 255,
    PDB.pySlice (PDB.product_code produto) 100,
    PDB.pySlice (PDB.extract_product_fields produto).2.1 255,
    PDB.pySlice (PDB.extract_product_fields produto).2.2 255⟩, rfl, rfl, ?_⟩
  simp [PDB.get_or_create_product, hnone]

theorem gocp_found (db : PDB.DBState) (produto : String) (row : PDB.ProductRow)
    (hfind : db.products.find? (fun r => r.code = PDB.product_code produto) = some row) :
    PDB.get_or_create_product db produto = (row.id, db) := by
  simp [PDB.get_or_create_product, hfind]

/-- C8: ingesting the same product name twice (from a state without that
product) creates exactly one `Products` row — both calls resolve to the same
derived code, hence the same product id — while each ingest appends one new
`List` row and existing `List` rows are never modified. -/
theorem C8_ingest_same_name_twice :
    ∀ (db : PDB.DBState) (produto : String) (a1 a2 : PDB.ListArgs),
      db.products.find? (fun r => r.code = PDB.product_code produto) = none →
      (PDB.twiceIngest db produto a1 a2).1 = (PDB.twiceIngest db produto a1 a2).2.1 ∧
      ((PDB.twiceIngest db produto a1 a2).2.2).products.length = db.products.length + 1 ∧
      (((PDB.twiceIngest db produto a1 a2).2.2).products.filter
          (fun r => r.code = PDB.product_code produto)).length = 1 ∧
      ((PDB.twiceIngest db produto a1 a2).2.2).lists.length = db.lists.length + 2 ∧
      List.take db.lists.length ((PDB.twiceIngest db produto a1 a2).2.2).lists = db.lists := by
  intro db produto a1 a2 hnone
  obtain ⟨row, hid, hcode, h1⟩ := gocp_insert db produto hnone
  have hpred : (fun r : PDB.ProductRow => decide (r.code = PDB.product_code produto)) row = true := by
    simp only [hcode, product_code_slice, decide_eq_true_eq]
  have hfind2 : (db.products ++ [row]).find?
      (fun r => r.code = PDB.product_code produto) = some row := by
    rw [List.find?_append, hnone]
    simp only [Option.none_or, List.find?_cons, hpred]
  have ht : PDB.twiceIngest db produto a1 a2 =
      (db.products.length + 1, row.id,
        PDB.insert_list_row
          (PDB.insert_list_row { db with products := db.products ++ [row] } a1
            (db.products.length + 1)) a2 row.id) := by
    simp only [PDB.twiceIngest, h1]
    rw [gocp_found _ produto row ?_]
    · exact hfind2
  rw [ht]
  refine ⟨hid.symm, ?_, ?_, ?_, ?_⟩
  · simp [PDB.insert_list_row]
  · simp only [PDB.insert_list_row, List.filter_append]
    rw [List.filter_eq_nil_iff.mpr (List.find?_eq_none.mp hnone)]
    simp [hpred]
  · simp [PDB.insert_list_row]
  · simp only [PDB.insert_list_row, List.append_assoc]
    exact List.take_left db.lists _

/-- Witness for C8: two ingests of `"Galaxy S24"` into the empty database. -/
theorem C8_ingest_same_name_twice_witness :
    ((PDB.DBState.mk [] []).products.find?
      (fun r => r.code = PDB.product_code "Galaxy S24") = none) ∧
    ((PDB.twiceIngest ⟨[], []⟩ "Galaxy S24"
        ⟨some "http://a", some 10, none, none, none, none, 1, 1⟩
        ⟨some "http://b", some 11, none, none, none, none, 1, 1⟩).1 =
      (PDB.twiceIngest ⟨[], []⟩ "Galaxy S24"
        ⟨some "http://a", some 10, none, none, none, none, 1, 1⟩
        ⟨some "http://b", some 11, none, none, none, none, 1, 1⟩).2.1 ∧
     ((PDB.twiceIngest ⟨[], []⟩ "Galaxy S24"
        ⟨some "http://a", some 10, none, none, none, none, 1, 1⟩
        ⟨some "http://b", some 11, none, none, none, none, 1, 1⟩).2.2).products.length =
       (PDB.DBState.mk [] []).products.length + 1 ∧
     (((PDB.twiceIngest ⟨[], []⟩ "Galaxy S24"
        ⟨some "http://a", some 10, none, none, none, none, 1, 1⟩
        ⟨some "http://b", some 11, none, none, none, none, 1, 1⟩).2.2).products.filter
          (fun r => r.code = PDB.product_code "Galaxy S24")).length = 1 ∧
     ((PDB.twiceIngest ⟨[], []⟩ "Galaxy S24"
        ⟨some "http://a", some 10, none, none, none, none, 1, 1⟩
        ⟨some "http://b", some 11, none, none, none, none, 1, 1⟩).2.2).lists.length =
       (PDB.DBState.mk [] []).lists.length + 2 ∧
     List.take (PDB.DBState.mk [] []).lists.length
        ((PDB.twiceIngest ⟨[], []⟩ "Galaxy S24"
          ⟨some "http://a", some 10, none, none, none, none, 1, 1⟩
          ⟨some "http://b", some 11, none, none, none, none, 1, 1⟩).2.2).lists =
       (PDB.DBState.mk [] []).lists) :=
  ⟨by decide, C8_ingest_same_name_twice ⟨[], []⟩ "Galaxy S24"
    ⟨some "http://a", some 10, none, none, none, none, 1, 1⟩
    ⟨some "http://b", some 11, none, none, none, none, 1, 1⟩ (by decide)⟩

theorem processItem_produto_url (fetch : String → Except String Doc) (it : Item) :
    (processItem fetch it).produto = it.produto ∧ (processItem fetch it).url = it.url := by
  cases hf : fetch it.url with
  | error e => simp [processItem, hf]
  | ok doc =>
    simp only [processItem, hf]
    constructor <;> split <;> rfl

/-- C9: a batch with no valid URL rows (no cleaned cell of a detected link
column starting with `"http"`) raises immediately and produces no records;
otherwise the batch returns one record per item, and an item whose fetch
fails gets `status = "erro"` with the error recorded in its own record. -/
theorem C9_batch_error_policy :
    ∀ (df : DF) (fetch : String → Except String Doc),
      ((normalize_input_dataframe df).isEmpty = true ↔
        ∀ r ∈ df.rows, ∀ i ∈ linkIdxsOf df,
          startsWithL (clean_text (cellAt r i)).data ("http").data = false) ∧
      ((normalize_input_dataframe df).isEmpty = true →
        scrape_products fetch df = Except.error ("Nenhum link válido encontrado.")) ∧
      (∀ recs, scrape_products fetch df = Except.ok recs →
        recs.length = (normalize_input_dataframe df).length ∧
        ∀ (i : Nat) (it : Item), (normalize_input_dataframe df)[i]? = some it →
          recs[i]? = some (processItem fetch it) ∧
          (processItem fetch it).produto = it.produto ∧
          (processItem fetch it).url = it.url ∧
          ∀ e, fetch it.url = Except.error e →
            (processItem fetch it).status = "erro" ∧ (processItem fetch it).erro = e) := by
  intro df fetch
  refine ⟨?_, ?_, ?_⟩
  · simp only [normalize_input_dataframe, List.isEmpty_iff, List.flatMap_eq_nil_iff,
      List.filterMap_eq_nil_iff, ite_eq_right_iff, reduceCtorEq, imp_false, Bool.not_eq_true]
  · intro h
    simp [scrape_products, h]
  · intro recs hok
    by_cases hE : (normalize_input_dataframe df).isEmpty = true
    · simp [scrape_products, hE] at hok
    · simp only [scrape_products, hE, Bool.false_eq_true, if_false, Except.ok.injEq] at hok
      subst hok
      refine ⟨List.length_map _ _, ?_⟩
      intro i it hit
      refine ⟨?_, (processItem_produto_url fetch it).1, (processItem_produto_url fetch it).2, ?_⟩
      · rw [List.getElem?_map, hit]
        rfl
      · intro e he
        simp [processItem, he]

/-- Witness for C9: an input with no URL cell is batch-fatal; an input with
one valid URL and a failing fetch yields one record with the error recorded. -/
theorem C9_batch_error_policy_witness :
    scrape_products (fun _ => Except.error "TimeoutException")
        ⟨["produto", "obs"], [["x", "texto"]]⟩ =
      Except.error ("Nenhum link válido encontrado.") ∧
    (([⟨"x", "http://a.b/c", "link", "", none, "erro", "TimeoutException"⟩] :
        List Record).length =
      (normalize_input_dataframe ⟨["produto", "link"], [["x", "http://a.b/c"]]⟩).length ∧
     ∀ (i : Nat) (it : Item),
        (normalize_input_dataframe ⟨["produto", "link"], [["x", "http://a.b/c"]]⟩)[i]? =
          some it →
        ([⟨"x", "http://a.b/c", "link", "", none, "erro", "TimeoutException"⟩] :
            List Record)[i]? =
          some (processItem (fun _ => Except.error "TimeoutException") it) ∧
        (processItem (fun _ => Except.error "TimeoutException") it).produto = it.produto ∧
        (processItem (fun _ => Except.error "TimeoutException") it).url = it.url ∧
        ∀ e, (fun _ : String => (Except.error "TimeoutException" : Except String Doc)) it.url =
            Except.error e →
          (processItem (fun _ => Except.error "TimeoutException") it).status = "erro" ∧
          (processItem (fun _ => Except.error "TimeoutException") it).erro = e) :=
  ⟨(C9_batch_error_policy ⟨["produto", "obs"], [["x", "texto"]]⟩
      (fun _ => Except.error "TimeoutException")).2.1 (by decide),
   (C9_batch_error_policy ⟨["produto", "link"], [["x", "http://a.b/c"]]⟩
      (fun _ => Except.error "TimeoutException")).2.2
      [⟨"x", "http://a.b/c", "link", "", none, "erro", "TimeoutException"⟩] (by decide)⟩

theorem floor_le_rheZ (x : ℚ) : ⌊x⌋ ≤ rheZ x := by
  unfold rheZ
  split_ifs <;> omega

theorem rheZ_le_ceil (x : ℚ) : rheZ x ≤ ⌈x⌉ := by
  have hfl : (⌊x⌋ : ℚ) ≤ x := Int.floor_le x
  unfold rheZ
  split_ifs with h1 h2 h3
  · exact Int.floor_le_ceil x
  · exact Int.add_one_le_iff.mpr (Int.lt_ceil.mpr (by linarith))
  · exact Int.floor_le_ceil x
  · exact Int.add_one_le_iff.mpr (Int.lt_ceil.mpr (by linarith))

theorem round2_mem (v : ℚ) (h0 : 0 ≤ v) (h5 : v ≤ 5) : 0 ≤ round2 v ∧ round2 v ≤ 5 := by
  have hlow : (0 : ℤ) ≤ rheZ (v * 100) :=
    le_trans (Int.floor_nonneg.mpr (by linarith)) (floor_le_rheZ _)
  have hhigh : rheZ (v * 100) ≤ 500 :=
    le_trans (rheZ_le_ceil _) (Int.ceil_le.mpr (by push_cast; linarith))
  have hlow' : (0 : ℚ) ≤ (rheZ (v * 100) : ℚ) := by exact_mod_cast hlow
  have hhigh' : ((rheZ (v * 100) : ℚ)) ≤ 500 := by exact_mod_cast hhigh
  unfold round2
  constructor
  · positivity
  · rw [div_le_iff₀ (by norm_num : (0 : ℚ) < 100)]
    linarith

theorem rateFromGroup_range (g : List Char) (q : ℚ) (h : rateFromGroup g = some q) :
    0 ≤ q ∧ q ≤ 5 := by
  unfold rateFromGroup at h
  split at h
  · rename_i v _
    split at h
    · rename_i hv
      injection h with h'
      subst h'
      exact round2_mem v hv.1 hv.2
    · cases h
  · cases h

/-- C10: `parse_avaliacao` returns a number only within `[0, 5]` (any parsed
value outside that interval yields `None`), and a string containing
`"avaliaç"` with neither `"de 5"` nor `"/5"` also yields `None`. -/
theorem C10_parse_avaliacao_range :
    ∀ s : String,
      (∀ q, parse_avaliacao s = some q → 0 ≤ q ∧ q ≤ 5) ∧
      (containsL (pyLowerL (stripWS s.data)) kwAval = true →
        containsL (pyLowerL (stripWS s.data)) kwDe5 = false →
        containsL (pyLowerL (stripWS s.data)) kwSlash5 = false →
        parse_avaliacao s = none) := by
  intro s
  constructor
  · intro q hq
    unfold parse_avaliacao at hq
    dsimp only at hq
    split at hq
    · exact absurd hq (by simp)
    · split at hq
      · exact rateFromGroup_range _ q hq
      · split at hq
        · exact rateFromGroup_range _ q hq
        · exact absurd hq (by simp)
  · intro h1 h2 h3
    have hcond : containsL (pyLowerL (stripWS s.data)) kwAval = true ∧
        ¬ containsL (pyLowerL (stripWS s.data)) kwDe5 = true ∧
        ¬ containsL (pyLowerL (stripWS s.data)) kwSlash5 = true :=
      ⟨h1, by simp [h2], by simp [h3]⟩
    simp only [parse_avaliacao, if_pos hcond]

/-- Witness for C10: `"4,5 de 5"` parses to a value within range, and the
review count `"27 avaliações"` yields no rating. -/
theorem C10_parse_avaliacao_range_witness :
    (0 ≤ (9 : ℚ) / 2 ∧ (9 : ℚ) / 2 ≤ 5) ∧ parse_avaliacao "27 avaliações" = none :=
  ⟨(C10_parse_avaliacao_range "4,5 de 5").1 (9 / 2) (by decide),
   (C10_parse_avaliacao_range "27 avaliações").2 (by decide) (by decide) (by decide)⟩

/-! ### Correctness of the `NUMBER_RE` matcher -/

theorem isDigit_ne_dot {c : Char} (h : c.isDigit = true) : c ≠ '.' := by
  rintro rfl
  exact absurd h (by decide)

theorem isDigit_ne_comma {c : Char} (h : c.isDigit = true) : c ≠ ',' := by
  rintro rfl
  exact absurd h (by decide)

theorem isWS_eq_false_of_isDigit {c : Char} (h : c.isDigit = true) : isWS c = false := by
  cases hw : isWS c
  · rfl
  · simp only [isWS, Bool.or_eq_true, decide_eq_true_eq] at hw
    rcases hw with ((((rfl | rfl) | rfl) | rfl) | rfl) | rfl <;> exact absurd h (by decide)

theorem takeWhile_all_append {p : Char → Bool} {l1 : List Char} {c : Char} {l2 : List Char}
    (h1 : ∀ x ∈ l1, p x = true) (h2 : p c = false) :
    (l1 ++ c :: l2).takeWhile p = l1 := by
  induction l1 with
  | nil => simp [List.takeWhile_cons, h2]
  | cons a rest ih =>
    simp only [List.cons_append, List.takeWhile_cons, h1 a (List.mem_cons_self a rest), if_true]
    rw [ih (fun x hx => h1 x (List.mem_cons_of_mem a hx))]

theorem dropWhile_all_append {p : Char → Bool} {l1 : List Char} {c : Char} {l2 : List Char}
    (h1 : ∀ x ∈ l1, p x = true) (h2 : p c = false) :
    (l1 ++ c :: l2).dropWhile p = c :: l2 := by
  induction l1 with
  | nil => simp [List.dropWhile_cons, h2]
  | cons a rest ih =>
    simp only [List.cons_append, List.dropWhile_cons, h1 a (List.mem_cons_self a rest), if_true]
    exact ih (fun x hx => h1 x (List.mem_cons_of_mem a hx))

theorem tailTok_head (t : List Char) (h : tailTok t = true) :
    ∃ c t', t = c :: t' ∧ (c = ',' ∨ c = '.') := by
  rw [tailTok.eq_def] at h
  split at h
  · exact ⟨',', _, rfl, Or.inl rfl⟩
  · exact ⟨'.', _, rfl, Or.inr rfl⟩
  · cases h

theorem commaTwo_sound (cs : List Char) (k : Nat) (h : commaTwo cs = some k) :
    ∃ a b rest, cs = ',' :: a :: b :: rest ∧ a.isDigit = true ∧ b.isDigit = true ∧ k = 3 := by
  rw [commaTwo.eq_def] at h
  split at h
  · rename_i a b rest
    split at h
    · rename_i hd
      injection h with h'
      simp only [Bool.and_eq_true] at hd
      exact ⟨a, b, rest, rfl, hd.1, hd.2, h'.symm⟩
    · cases h
  · cases h

theorem grpThen_sound : ∀ (cs : List Char) (k : Nat), grpThen cs = some k →
    tailTok (cs.take k) = true ∧ k ≤ cs.length := by
  intro cs
  induction cs using grpThen.induct with
  | case1 a b c rest hd n hrest ih =>
    intro k hk
    simp only [grpThen, hd, if_true, hrest] at hk
    injection hk with hk
    subst hk
    obtain ⟨h1, h2⟩ := ih n hrest
    constructor
    · show tailTok ('.' :: a :: b :: c :: List.take n rest) = true
      simp only [tailTok, Bool.and_eq_true] at *
      exact ⟨⟨⟨hd.1.1, hd.1.2⟩, hd.2⟩, h1⟩
    · simp only [List.length_cons]
      omega
  | case2 a b c rest hd hrest ih =>
    intro k hk
    simp only [grpThen, hd, if_true, hrest] at hk
    obtain ⟨a', b', rest', heq, _, _, _⟩ := commaTwo_sound _ _ hk
    exact absurd (List.head_eq_of_cons_eq heq) (by decide)
  | case3 a b c rest hd =>
    intro k hk
    have hd' : (a.isDigit && b.isDigit && c.isDigit) = false := by
      simpa using hd
    simp only [grpThen, hd', Bool.false_eq_true, if_false] at hk
    obtain ⟨a', b', rest', heq, _, _, _⟩ := commaTwo_sound _ _ hk
    exact absurd (List.head_eq_of_cons_eq heq) (by decide)
  | case4 cs hne =>
    intro k hk
    rw [grpThen.eq_def] at hk
    split at hk
    · rename_i a b c rest
      exact absurd rfl (hne a b c rest)
    · obtain ⟨a, b, rest, heq, hda, hdb, hk3⟩ := commaTwo_sound _ _ hk
      subst heq
      subst hk3
      constructor
      · show tailTok [',', a, b] = true
        simp [tailTok, hda, hdb]
      · simp only [List.length_cons]
        omega

theorem tryNum_sound (cs : List Char) (n : Nat) (hn1 : 1 ≤ n) (hn3 : n ≤ 3) (m : List Char)
    (h : tryNum cs n = some m) : tokenMatch m = true ∧ ∃ r, cs = m ++ r := by
  unfold tryNum at h
  dsimp only at h
  split at h
  · rename_i hcond
    simp only [Bool.and_eq_true, decide_eq_true_eq, List.all_eq_true] at hcond
    split at h
    · rename_i k hg
      injection h with h'
      subst h'
      obtain ⟨ht, hk⟩ := grpThen_sound _ k hg
      constructor
      · rw [List.take_add]
        obtain ⟨c, t', hct, hc⟩ := tailTok_head _ ht
        have hcd : c.isDigit = false := by
          rcases hc with rfl | rfl <;> decide
        rw [hct]
        have hds : ∀ x ∈ cs.take n, Char.isDigit x = true := hcond.2
        rw [tokenMatch]
        rw [takeWhile_all_append hds hcd, dropWhile_all_append hds hcd]
        rw [← hct, ht]
        simp only [Bool.and_eq_true, decide_eq_true_eq]
        exact ⟨⟨by omega, by rw [hcond.1]; omega⟩, trivial⟩
      · exact ⟨cs.drop (n + k), (List.take_append_drop _ _).symm⟩
    · cases h
  · cases h

theorem numAt_sound (cs m : List Char) (h : numAt cs = some m) :
    tokenMatch m = true ∧ ∃ r, cs = m ++ r := by
  unfold numAt at h
  split at h
  · rename_i m3 h3
    injection h with h'
    subst h'
    exact tryNum_sound cs 3 (by omega) (by omega) _ h3
  · split at h
    · rename_i m2 h2
      injection h with h'
      subst h'
      exact tryNum_sound cs 2 (by omega) (by omega) _ h2
    · exact tryNum_sound cs 1 (by omega) (by omega) _ h

theorem searchNum_sound : ∀ (cs m : List Char), searchNum cs = some m →
    ∃ i, (∀ j, j < i → numAt (List.drop j cs) = none) ∧ numAt (List.drop i cs) = some m := by
  intro cs
  induction cs with
  | nil => intro m h; cases h
  | cons c rest ih =>
    intro m h
    simp only [searchNum] at h
    split at h
    · rename_i m' hm
      injection h with h'
      subst h'
      exact ⟨0, fun j hj => absurd hj (Nat.not_lt_zero j), by simpa using hm⟩
    · rename_i hnone
      obtain ⟨i, hall, hi⟩ := ih m h
      refine ⟨i + 1, ?_, by simpa using hi⟩
      intro j hj
      cases j with
      | zero => simpa using hnone
      | succ j' => simpa using hall j' (by omega)

theorem tailTok_grpThen : ∀ (t : List Char), tailTok t = true →
    ∀ r, (grpThen (t ++ r)).isSome = true := by
  intro t
  induction t using tailTok.induct with
  | case1 a b =>
    intro h r
    simp only [tailTok, Bool.and_eq_true] at h
    rw [grpThen.eq_def]
    split
    · rename_i heq
      exact absurd (List.head_eq_of_cons_eq heq) (by decide)
    · simp [commaTwo, h.1, h.2]
  | case2 a b c rest ih =>
    intro h r
    simp only [tailTok, Bool.and_eq_true] at h
    have ihr := ih h.2 r
    have hd : (a.isDigit && b.isDigit && c.isDigit) = true := by
      simp only [Bool.and_eq_true]
      exact h.1
    show (grpThen ('.' :: a :: b :: c :: (rest ++ r))).isSome = true
    simp only [grpThen, hd, if_true]
    obtain ⟨n, hn⟩ := Option.isSome_iff_exists.mp ihr
    simp [hn]
  | case3 t hne1 hne2 =>
    intro h r
    rw [tailTok.eq_def] at h
    split at h
    · exact absurd rfl (hne1 _ _)
    · exact absurd rfl (hne2 _ _ _ _)
    · cases h

theorem tokenMatch_decomp (m : List Char) (h : tokenMatch m = true) :
    ∃ ds t, m = ds ++ t ∧ (∀ x ∈ ds, x.isDigit = true) ∧ 1 ≤ ds.length ∧ ds.length ≤ 3 ∧
      tailTok t = true := by
  rw [tokenMatch] at h
  simp only [Bool.and_eq_true, decide_eq_true_eq] at h
  exact ⟨m.takeWhile Char.isDigit, m.dropWhile Char.isDigit,
    (List.takeWhile_append_dropWhile _ _).symm,
    fun x hx => List.mem_takeWhile_imp hx, h.1.1, h.1.2, h.2⟩

theorem tryNum_none_of_head (ds : List Char) (c : Char) (t2 : List Char) (j : Nat)
    (hlen : ds.length < j) (hcd : c.isDigit = false) :
    tryNum (ds ++ c :: t2) j = none := by
  unfold tryNum
  dsimp only
  have hall : ((ds ++ c :: t2).take j).all Char.isDigit = false := by
    rw [List.take_append_eq_append_take, List.take_of_length_le (le_of_lt hlen)]
    obtain ⟨d, hd⟩ : ∃ d, j - ds.length = d + 1 := ⟨j - ds.length - 1, by omega⟩
    rw [hd]
    simp [List.all_append, hcd]
  rw [hall]
  simp

theorem tryNum_isSome_self (ds t r : List Char) (hds : ∀ x ∈ ds, x.isDigit = true)
    (ht : tailTok t = true) :
    (tryNum (ds ++ (t ++ r)) ds.length).isSome = true := by
  unfold tryNum
  dsimp only
  rw [List.take_left, List.drop_left]
  obtain ⟨k, hk⟩ := Option.isSome_iff_exists.mp (tailTok_grpThen t ht r)
  have hall : ds.all Char.isDigit = true := List.all_eq_true.mpr hds
  simp [hk, hall]

theorem numAt_of_t3 (cs m : List Char) (h : tryNum cs 3 = some m) : numAt cs = some m := by
  unfold numAt
  rw [h]

theorem numAt_of_t2 (cs m : List Char) (h3 : tryNum cs 3 = none) (h2 : tryNum cs 2 = some m) :
    numAt cs = some m := by
  unfold numAt
  rw [h3, h2]

theorem numAt_of_t1 (cs : List Char) (h3 : tryNum cs 3 = none) (h2 : tryNum cs 2 = none) :
    numAt cs = tryNum cs 1 := by
  unfold numAt
  rw [h3, h2]

theorem numAt_complete (m : List Char) (h : tokenMatch m = true) (r : List Char) :
    (numAt (m ++ r)).isSome = true := by
  obtain ⟨ds, t, rfl, hds, h1, h3, ht⟩ := tokenMatch_decomp m h
  obtain ⟨c, t', rfl, hc⟩ := tailTok_head t ht
  have hcd : c.isDigit = false := by rcases hc with rfl | rfl <;> decide
  have hshape : (ds ++ c :: t') ++ r = ds ++ ((c :: t') ++ r) := by
    simp [List.append_assoc]
  have hok := tryNum_isSome_self ds (c :: t') r hds ht
  have hnone : ∀ j, ds.length < j → tryNum ((ds ++ c :: t') ++ r) j = none := by
    intro j hj
    have hsh2 : (ds ++ c :: t') ++ r = ds ++ c :: (t' ++ r) := by simp
    rw [hsh2]
    exact tryNum_none_of_head ds c (t' ++ r) j hj hcd
  rw [hshape] at hnone ⊢
  have h123 : ds.length = 1 ∨ ds.length = 2 ∨ ds.length = 3 := by omega
  rcases h123 with hl | hl | hl
  · rw [numAt_of_t1 _ (hnone 3 (by omega)) (hnone 2 (by omega))]
    rw [hl] at hok
    exact hok
  · rw [hl] at hok
    obtain ⟨mm, hmm⟩ := Option.isSome_iff_exists.mp hok
    rw [numAt_of_t2 _ mm (hnone 3 (by omega)) hmm]
    rfl
  · rw [hl] at hok
    obtain ⟨mm, hmm⟩ := Option.isSome_iff_exists.mp hok
    rw [numAt_of_t3 _ mm hmm]
    rfl

theorem tailTok_unique : ∀ (t1 t2 r1 r2 : List Char), tailTok t1 = true → tailTok t2 = true →
    t1 ++ r1 = t2 ++ r2 → t1 = t2 := by
  intro t1
  induction t1 using tailTok.induct with
  | case1 a b =>
    intro t2 r1 r2 h1 h2 heq
    rw [tailTok.eq_def] at h2
    split at h2
    · rename_i a2 b2
      simp only [List.cons_append, List.cons.injEq] at heq
      obtain ⟨-, ha, hb, -⟩ := heq
      rw [ha, hb]
    · rename_i a2 b2 c2 rest2
      simp only [List.cons_append, List.cons.injEq] at heq
      exact absurd heq.1 (by decide)
    · cases h2
  | case2 a b c rest ih =>
    intro t2 r1 r2 h1 h2 heq
    simp only [tailTok, Bool.and_eq_true] at h1
    rw [tailTok.eq_def] at h2
    split at h2
    · rename_i a2 b2
      simp only [List.cons_append, List.cons.injEq] at heq
      exact absurd heq.1 (by decide)
    · rename_i a2 b2 c2 rest2
      simp only [List.cons_append, List.cons.injEq] at heq
      obtain ⟨-, hb, hc, hd, htl⟩ := heq
      simp only [Bool.and_eq_true] at h2
      have hr := ih rest2 r1 r2 h1.2 h2.2 htl
      rw [hb, hc, hd, hr]
    · cases h2
  | case3 t hne1 hne2 =>
    intro t2 r1 r2 h1 h2 heq
    rw [tailTok.eq_def] at h1
    split at h1
    · exact absurd rfl (hne1 _ _)
    · exact absurd rfl (hne2 _ _ _ _)
    · cases h1

/-- Two `NUMBER_RE` tokens starting at the same position coincide. -/
theorem token_unique (m1 m2 r1 r2 : List Char) (h1 : tokenMatch m1 = true)
    (h2 : tokenMatch m2 = true) (heq : m1 ++ r1 = m2 ++ r2) : m1 = m2 := by
  obtain ⟨ds1, t1, rfl, hd1, _, _, ht1⟩ := tokenMatch_decomp m1 h1
  obtain ⟨ds2, t2, rfl, hd2, _, _, ht2⟩ := tokenMatch_decomp m2 h2
  obtain ⟨c1, t1', hc1eq, hc1⟩ := tailTok_head t1 ht1
  obtain ⟨c2, t2', hc2eq, hc2⟩ := tailTok_head t2 ht2
  have hcd1 : c1.isDigit = false := by rcases hc1 with rfl | rfl <;> decide
  have hcd2 : c2.isDigit = false := by rcases hc2 with rfl | rfl <;> decide
  have hsh1 : (ds1 ++ t1) ++ r1 = ds1 ++ c1 :: (t1' ++ r1) := by
    rw [hc1eq]
    simp
  have hsh2 : (ds2 ++ t2) ++ r2 = ds2 ++ c2 :: (t2' ++ r2) := by
    rw [hc2eq]
    simp
  have htw : ds1 = ds2 := by
    have e1 : ((ds1 ++ t1) ++ r1).takeWhile Char.isDigit = ds1 := by
      rw [hsh1]
      exact takeWhile_all_append hd1 hcd1
    have e2 : ((ds2 ++ t2) ++ r2).takeWhile Char.isDigit = ds2 := by
      rw [hsh2]
      exact takeWhile_all_append hd2 hcd2
    rw [← e1, ← e2, heq]
  have hdw : t1 ++ r1 = t2 ++ r2 := by
    have e1 : ((ds1 ++ t1) ++ r1).dropWhile Char.isDigit = c1 :: (t1' ++ r1) := by
      rw [hsh1]
      exact dropWhile_all_append hd1 hcd1
    have e2 : ((ds2 ++ t2) ++ r2).dropWhile Char.isDigit = c2 :: (t2' ++ r2) := by
      rw [hsh2]
      exact dropWhile_all_append hd2 hcd2
    have : c1 :: (t1' ++ r1) = c2 :: (t2' ++ r2) := by rw [← e1, ← e2, heq]
    rw [hc1eq, hc2eq]
    simpa using this
  rw [htw, tailTok_unique t1 t2 r1 r2 ht1 ht2 hdw]

theorem searchNum_isSome_of_numAt : ∀ (cs : List Char) (i : Nat),
    (numAt (List.drop i cs)).isSome = true → (searchNum cs).isSome = true := by
  intro cs
  induction cs with
  | nil =>
    intro i h
    rw [List.drop_nil] at h
    exact absurd h (by decide)
  | cons c rest ih =>
    intro i h
    cases i with
    | zero =>
      rw [List.drop_zero] at h
      obtain ⟨m, hm⟩ := Option.isSome_iff_exists.mp h
      simp [searchNum, hm]
    | succ i' =>
      rw [List.drop_succ_cons] at h
      simp only [searchNum]
      split
      · rfl
      · exact ih i' h

theorem searchNum_at : ∀ (cs : List Char) (i : Nat) (m : List Char),
    (∀ j, j < i → numAt (List.drop j cs) = none) → numAt (List.drop i cs) = some m →
    searchNum cs = some m := by
  intro cs
  induction cs with
  | nil =>
    intro i m _ hi
    rw [List.drop_nil] at hi
    simp [numAt, tryNum] at hi
  | cons c rest ih =>
    intro i m hall hi
    cases i with
    | zero =>
      rw [List.drop_zero] at hi
      simp [searchNum, hi]
    | succ i' =>
      have h0 : numAt (c :: rest) = none := by simpa using hall 0 (Nat.succ_pos i')
      simp only [searchNum, h0]
      exact ih i' m (fun j hj => by simpa using hall (j + 1) (by omega))
        (by simpa using hi)

theorem tokPre_iff (cs : List Char) : tokPre cs = true ↔ (numAt cs).isSome = true := by
  constructor
  · intro h
    simp only [tokPre, List.any_eq_true, List.mem_range] at h
    obtain ⟨k, _, htk⟩ := h
    have := numAt_complete _ htk (cs.drop k)
    rwa [List.take_append_drop] at this
  · intro h
    obtain ⟨m, hm⟩ := Option.isSome_iff_exists.mp h
    obtain ⟨htm, r, hr⟩ := numAt_sound cs m hm
    simp only [tokPre, List.any_eq_true, List.mem_range]
    refine ⟨m.length, ?_, ?_⟩
    · rw [hr, List.length_append]
      omega
    · rw [hr, List.take_left]
      exact htm

theorem containsToken_iff (cs : List Char) :
    containsToken cs = true ↔ (searchNum cs).isSome = true := by
  constructor
  · intro h
    simp only [containsToken, List.any_eq_true, List.mem_range] at h
    obtain ⟨i, _, hp⟩ := h
    exact searchNum_isSome_of_numAt cs i ((tokPre_iff _).mp hp)
  · intro h
    obtain ⟨m, hm⟩ := Option.isSome_iff_exists.mp h
    obtain ⟨i, _, hi⟩ := searchNum_sound cs m hm
    simp only [containsToken, List.any_eq_true, List.mem_range]
    refine ⟨i, ?_, (tokPre_iff _).mpr (by simp [hi])⟩
    by_contra hgt
    push_neg at hgt
    rw [List.drop_eq_nil_of_le (by omega)] at hi
    simp [numAt, tryNum] at hi

theorem dropWhile_all_false {p : Char → Bool} :
    ∀ {l : List Char}, (∀ c ∈ l, p c = false) → l.dropWhile p = l := by
  intro l h
  cases l with
  | nil => rfl
  | cons c cs => simp [List.dropWhile_cons, h c (List.mem_cons_self c cs)]

theorem takeWhile_all {p : Char → Bool} :
    ∀ {l : List Char}, (∀ c ∈ l, p c = true) → l.takeWhile p = l := by
  intro l
  induction l with
  | nil => intro _; rfl
  | cons c cs ih =>
    intro h
    simp only [List.takeWhile_cons, h c (List.mem_cons_self c cs), if_true]
    rw [ih (fun x hx => h x (List.mem_cons_of_mem c hx))]

theorem dropWhile_all {p : Char → Bool} :
    ∀ {l : List Char}, (∀ c ∈ l, p c = true) → l.dropWhile p = [] := by
  intro l
  induction l with
  | nil => intro _; rfl
  | cons c cs ih =>
    intro h
    simp only [List.dropWhile_cons, h c (List.mem_cons_self c cs), if_true]
    exact ih (fun x hx => h x (List.mem_cons_of_mem c hx))

theorem stripWS_eq_self {l : List Char} (h : ∀ c ∈ l, isWS c = false) : stripWS l = l := by
  unfold stripWS
  rw [dropWhile_all_false h]
  rw [dropWhile_all_false (fun c hc => h c (List.mem_reverse.mp hc))]
  exact List.reverse_reverse l

theorem parseFloatLit_digits (d : Char) (ip' fd : List Char) (hd : d.isDigit = true)
    (hip : ∀ x ∈ ip', x.isDigit = true) (hfd : ∀ x ∈ fd, x.isDigit = true) :
    parseFloatLit ((d :: ip') ++ '.' :: fd) =
      some ((digitsToNat (d :: ip') : ℚ) + (digitsToNat fd : ℚ) / (10 : ℚ) ^ fd.length) := by
  have hall : ∀ x ∈ (d :: ip'), x.isDigit = true := by
    intro x hx
    rcases List.mem_cons.mp hx with rfl | hx'
    · exact hd
    · exact hip x hx'
  have hnws : stripWS ((d :: ip') ++ '.' :: fd) = (d :: ip') ++ '.' :: fd := by
    apply stripWS_eq_self
    intro c hc
    rcases List.mem_append.mp hc with hc | hc
    · exact isWS_eq_false_of_isDigit (hall c hc)
    · rcases List.mem_cons.mp hc with rfl | hc'
      · decide
      · exact isWS_eq_false_of_isDigit (hfd c hc')
  have hdot : Char.isDigit '.' = false := by decide
  have htw : ((d :: ip') ++ '.' :: fd).takeWhile Char.isDigit = d :: ip' :=
    takeWhile_all_append hall hdot
  have hdw : ((d :: ip') ++ '.' :: fd).dropWhile Char.isDigit = '.' :: fd :=
    dropWhile_all_append hall hdot
  have htwf : fd.takeWhile Char.isDigit = fd := takeWhile_all hfd
  have hdwf : fd.dropWhile Char.isDigit = [] := dropWhile_all hfd
  have h1 : ¬ (((d :: ip') ++ '.' :: fd).head? = some '-') := by
    simp only [List.cons_append, List.head?_cons, Option.some.injEq]
    rintro rfl
    exact absurd hd (by decide)
  have h2 : ¬ (((d :: ip') ++ '.' :: fd).head? = some '+') := by
    simp only [List.cons_append, List.head?_cons, Option.some.injEq]
    rintro rfl
    exact absurd hd (by decide)
  simp only [parseFloatLit]
  rw [hnws]
  rw [if_neg h1, if_neg h2]
  rw [htw, hdw]
  split
  · rename_i heq
    cases heq
  · rename_i fr heq
    injection heq with _ hfr
    subst hfr
    rw [htwf, hdwf]
    rw [if_pos ⟨rfl, Or.inl (by simp)⟩]
    rw [one_mul]
  · rename_i hn1 hn2
    exact absurd rfl (hn2 fd)

theorem filter_all_keep {p : Char → Bool} :
    ∀ {l : List Char}, (∀ c ∈ l, p c = true) → l.filter p = l := by
  intro l
  induction l with
  | nil => intro _; rfl
  | cons c cs ih =>
    intro h
    simp only [List.filter_cons, h c (List.mem_cons_self c cs), if_true]
    rw [ih (fun x hx => h x (List.mem_cons_of_mem c hx))]

theorem replace_keep_digits :
    ∀ {l : List Char}, (∀ c ∈ l, c.isDigit = true) → pyReplaceChar l ',' '.' = l := by
  intro l h
  unfold pyReplaceChar
  induction l with
  | nil => rfl
  | cons c cs ih =>
    simp only [List.map_cons]
    rw [if_neg (isDigit_ne_comma (h c (List.mem_cons_self c cs))),
      ih (fun x hx => h x (List.mem_cons_of_mem c hx))]

theorem tailTok_filter : ∀ (t : List Char), tailTok t = true →
    ∃ gd a b, (∀ x ∈ gd, x.isDigit = true) ∧ a.isDigit = true ∧ b.isDigit = true ∧
      t.filter (fun c => c ≠ '.') = gd ++ ',' :: [a, b] := by
  intro t
  induction t using tailTok.induct with
  | case1 a b =>
    intro h
    simp only [tailTok, Bool.and_eq_true] at h
    refine ⟨[], a, b, ?_, h.1, h.2, ?_⟩
    · intro x hx
      cases hx
    · simp [List.filter_cons, isDigit_ne_dot h.1, isDigit_ne_dot h.2]
  | case2 a b c rest ih =>
    intro h
    simp only [tailTok, Bool.and_eq_true] at h
    obtain ⟨⟨⟨ha, hb⟩, hc⟩, hrest⟩ := h
    obtain ⟨gd, x, y, hgd, hx, hy, hf⟩ := ih hrest
    refine ⟨a :: b :: c :: gd, x, y, ?_, hx, hy, ?_⟩
    · intro z hz
      rcases List.mem_cons.mp hz with rfl | hz
      · exact ha
      rcases List.mem_cons.mp hz with rfl | hz
      · exact hb
      rcases List.mem_cons.mp hz with rfl | hz
      · exact hc
      · exact hgd z hz
    · have hda : (decide (a ≠ '.')) = true := by simp [isDigit_ne_dot ha]
      have hdb : (decide (b ≠ '.')) = true := by simp [isDigit_ne_dot hb]
      have hdc : (decide (c ≠ '.')) = true := by simp [isDigit_ne_dot hc]
      have hdot : (decide (('.' : Char) ≠ '.')) = false := by decide
      simp only [List.filter_cons, hdot, hda, hdb, hdc, if_true, Bool.false_eq_true, if_false]
      rw [hf]
      simp
  | case3 t hne1 hne2 =>
    intro h
    rw [tailTok.eq_def] at h
    split at h
    · exact absurd rfl (hne1 _ _)
    · exact absurd rfl (hne2 _ _ _ _)
    · cases h

/-- The value `br_to_float` computes for a token is the declarative
`tokenValue`: thousands dots removed, comma as the decimal separator. -/
theorem tokenValue_parse (m : List Char) (h : tokenMatch m = true) :
    parseFloatLit (pyReplaceChar (m.filter (fun c => c ≠ '.')) ',' '.') =
      some (tokenValue m) := by
  obtain ⟨ds, t, rfl, hds, h1, _, ht⟩ := tokenMatch_decomp m h
  obtain ⟨gd, a, b, hgd, ha, hb, hf⟩ := tailTok_filter t ht
  have hfds : (ds ++ t).filter (fun c => c ≠ '.') = ds ++ (gd ++ ',' :: [a, b]) := by
    rw [List.filter_append, hf, filter_all_keep (fun c hc => by
      simp [isDigit_ne_dot (hds c hc)])]
  cases ds with
  | nil => simp at h1
  | cons d ds' =>
    have hd : d.isDigit = true := hds d (List.mem_cons_self d ds')
    have hds' : ∀ x ∈ ds', x.isDigit = true := fun x hx => hds x (List.mem_cons_of_mem d hx)
    rw [hfds]
    have hmap : ∀ (l1 l2 : List Char), pyReplaceChar (l1 ++ l2) ',' '.' =
        pyReplaceChar l1 ',' '.' ++ pyReplaceChar l2 ',' '.' := by
      intro l1 l2
      unfold pyReplaceChar
      rw [List.map_append]
    have hrepl : pyReplaceChar ((d :: ds') ++ (gd ++ ',' :: [a, b])) ',' '.' =
        ((d :: ds') ++ gd) ++ '.' :: [a, b] := by
      rw [hmap, hmap, replace_keep_digits hds, replace_keep_digits hgd]
      have htl : pyReplaceChar (',' :: [a, b]) ',' '.' = '.' :: [a, b] := by
        unfold pyReplaceChar
        simp only [List.map_cons, List.map_nil, if_pos rfl]
        rw [if_neg (isDigit_ne_comma ha), if_neg (isDigit_ne_comma hb)]
        simp
      rw [htl]
      simp
    rw [hrepl]
    have hcons : ((d :: ds') ++ gd) ++ '.' :: [a, b] = (d :: (ds' ++ gd)) ++ '.' :: [a, b] := by
      simp
    rw [hcons]
    rw [parseFloatLit_digits d (ds' ++ gd) [a, b] hd (fun x hx => by
      rcases List.mem_append.mp hx with hx | hx
      · exact hds' x hx
      · exact hgd x hx) (fun x hx => by
        rcases List.mem_cons.mp hx with rfl | hx
        · exact ha
        rcases List.mem_cons.mp hx with rfl | hx
        · exact hb
        · cases hx)]
    congr 1
    unfold tokenValue
    dsimp only
    rw [hfds]
    have htk : ((d :: ds') ++ (gd ++ ',' :: [a, b])).takeWhile (fun c => c ≠ ',') =
        (d :: ds') ++ gd := by
      have hsh : (d :: ds') ++ (gd ++ ',' :: [a, b]) = ((d :: ds') ++ gd) ++ ',' :: [a, b] := by
        simp
      rw [hsh]
      apply takeWhile_all_append
      · intro x hx
        rcases List.mem_append.mp hx with hx | hx
        · simp [isDigit_ne_comma (hds x hx)]
        · simp [isDigit_ne_comma (hgd x hx)]
      · decide
    have hdk : ((d :: ds') ++ (gd ++ ',' :: [a, b])).dropWhile (fun c => c ≠ ',') =
        ',' :: [a, b] := by
      have hsh : (d :: ds') ++ (gd ++ ',' :: [a, b]) = ((d :: ds') ++ gd) ++ ',' :: [a, b] := by
        simp
      rw [hsh]
      apply dropWhile_all_append
      · intro x hx
        rcases List.mem_append.mp hx with hx | hx
        · simp [isDigit_ne_comma (hds x hx)]
        · simp [isDigit_ne_comma (hgd x hx)]
      · decide
    rw [htk, hdk]
    simp only [List.drop_succ_cons, List.drop_zero, List.cons_append]
    norm_num

theorem numAt_head_nondigit (c : Char) (rest : List Char) (hc : c.isDigit = false) :
    numAt (c :: rest) = none := by
  cases hv : numAt (c :: rest) with
  | none => rfl
  | some mm =>
    obtain ⟨htk, r2, hde⟩ := numAt_sound _ _ hv
    obtain ⟨ds, t, hmm, hds, h1, _, _⟩ := tokenMatch_decomp mm htk
    cases ds with
    | nil => simp at h1
    | cons d ds' =>
      have hcd : c = d := by
        rw [hmm] at hde
        have := congrArg List.head? hde
        simpa using this
      have hdd := hds d (List.mem_cons_self d ds')
      rw [← hcd] at hdd
      rw [hdd] at hc
      cases hc

theorem br_to_float_of_searchNum (s : String) (m : List Char)
    (hm : searchNum s.data = some m) :
    br_to_float s = parseFloatLit (pyReplaceChar (m.filter (fun c => c ≠ '.')) ',' '.') := by
  have hne : s.data ≠ [] := by
    intro h0
    rw [h0] at hm
    simp [searchNum] at hm
  unfold br_to_float
  rw [if_neg hne, hm]

/-- C3: for every input string containing a `NUMBER_RE` token
(`\d{1,3}(?:\.\d{3})*,\d{2}`), `br_to_float` returns the exact decimal value
of the first (leftmost) such token, with thousands dots removed and the
decimal comma read as a dot; for every string with no such token it returns
`none`. -/
theorem C3_br_to_float_spec (s : String) :
    (containsToken s.data = false → br_to_float s = none) ∧
    (∀ (i : Nat) (m r : List Char), tokenMatch m = true →
      List.drop i s.data = m ++ r →
      (∀ j, j < i → tokPre (List.drop j s.data) = false) →
      br_to_float s = some (tokenValue m)) := by
  constructor
  · intro h
    have hs : searchNum s.data = none := by
      cases hv : searchNum s.data with
      | none => rfl
      | some m =>
        have hct : containsToken s.data = true := (containsToken_iff _).mpr (by rw [hv]; rfl)
        rw [hct] at h
        cases h
    unfold br_to_float
    rw [hs]
    split <;> rfl
  · intro i m r htok hpre hmin
    have hcomp := numAt_complete m htok r
    rw [← hpre] at hcomp
    obtain ⟨m2, hm2⟩ := Option.isSome_iff_exists.mp hcomp
    obtain ⟨htok2, r2, hde2⟩ := numAt_sound _ _ hm2
    have hmm : m = m2 := token_unique m m2 r r2 htok htok2 (hpre.symm.trans hde2)
    rw [← hmm] at hm2
    have hnone : ∀ j, j < i → numAt (List.drop j s.data) = none := by
      intro j hj
      have hp := hmin j hj
      cases hv : numAt (List.drop j s.data) with
      | none => rfl
      | some x =>
        have hpt : tokPre (List.drop j s.data) = true := (tokPre_iff _).mpr (by rw [hv]; rfl)
        rw [hpt] at hp
        cases hp
    have hsearch : searchNum s.data = some m := searchNum_at s.data i m hnone hm2
    rw [br_to_float_of_searchNum s m hsearch]
    exact tokenValue_parse m htok

/-- Witness for C3: a string with no token parses to `none`; `"R$ 1.234,56"`
has its first token at index 3 and parses exactly to `1234.56`. -/
theorem C3_br_to_float_spec_witness :
    br_to_float "sem numero" = none ∧
      br_to_float "R$ 1.234,56" = some (123456 / 100) := by
  constructor
  · exact (C3_br_to_float_spec "sem numero").1 (by decide)
  · have h := (C3_br_to_float_spec "R$ 1.234,56").2 3 ("1.234,56".data) []
      (by decide) (by decide) (by decide)
    rw [h]
    decide

/-- C4: for every string whose text contains a `NUMBER_RE` token, re-parsing
the rendered currency string recovers the same value:
`br_to_float (norm_price_str s) = br_to_float s`. -/
theorem C4_norm_price_round_trip (s : String) (h : containsToken s.data = true) :
    br_to_float (norm_price_str s) = br_to_float s := by
  have hsome : (searchNum s.data).isSome = true := (containsToken_iff _).mp h
  obtain ⟨m, hm⟩ := Option.isSome_iff_exists.mp hsome
  obtain ⟨i, _, hnum⟩ := searchNum_sound _ _ hm
  obtain ⟨htok, r, _⟩ := numAt_sound _ _ hnum
  have hn : norm_price_str s = { data := 'R' :: '$' :: ' ' :: m } := by
    unfold norm_price_str
    rw [hm]
    rfl
  have hsearch2 : searchNum ('R' :: '$' :: ' ' :: m) = some m := by
    apply searchNum_at _ 3 m
    · intro j hj
      interval_cases j
      · exact numAt_head_nondigit 'R' ('$' :: ' ' :: m) (by decide)
      · exact numAt_head_nondigit '$' (' ' :: m) (by decide)
      · exact numAt_head_nondigit ' ' m (by decide)
    · show numAt m = some m
      have hc := numAt_complete m htok []
      rw [List.append_nil] at hc
      obtain ⟨m2, hm2⟩ := Option.isSome_iff_exists.mp hc
      obtain ⟨htok2, r2, hde2⟩ := numAt_sound _ _ hm2
      have hmm : m = m2 := token_unique m m2 [] r2 htok htok2 (by rw [List.append_nil]; exact hde2)
      rw [hm2, ← hmm]
  have hsearch2' : searchNum (norm_price_str s).data = some m := by
    rw [hn]
    exact hsearch2
  rw [br_to_float_of_searchNum s m hm,
    br_to_float_of_searchNum (norm_price_str s) m hsearch2']

/-- Witness for C4: the round trip on `"preço: 1.234,56!"`. -/
theorem C4_norm_price_round_trip_witness :
    containsToken ("preço: 1.234,56!").data = true ∧
      br_to_float (norm_price_str "preço: 1.234,56!") = br_to_float "preço: 1.234,56!" :=
  ⟨by decide, C4_norm_price_round_trip "preço: 1.234,56!" (by decide)⟩
